import Mathlib

/-!
Verification development for the Medibudy repository (Vaidam hospital/doctor
scrapers and importers).  Python functions are shallowly embedded: regular
expressions are modelled by a small backtracking engine with Python's
leftmost-then-greedy priority order, strings are lists of characters,
floats are rationals, and effectful loops (HTTP retries, MongoDB upserts)
are modelled by explicit state passing.
-/

namespace Medibudy

/-! ### Character classes (Python semantics, ASCII-focused) -/

def isDigitPy (c : Char) : Bool := '0' ≤ c && c ≤ '9'

/-- Python regex `\s`: space, tab, newline, carriage return, vertical tab, form feed. -/
def isSpacePy (c : Char) : Bool :=
  c = ' ' || c = '\t' || c = '\n' || c = '\r' || c = Char.ofNat 11 || c = Char.ofNat 12

/-- The `[a-z]` under `re.IGNORECASE`: an ASCII letter of either case. -/
def isAzCI (c : Char) : Bool := 'a' ≤ c.toLower && c.toLower ≤ 'z'

/-- The `[^/]`. -/
def notSlash (c : Char) : Bool := c != '/'

/-- The `[^.]`. -/
def notDot (c : Char) : Bool := c != '.'

/-- The `.` outside DOTALL mode: anything but a newline. -/
def anyNoNL (c : Char) : Bool := c != '\n'

/-- The `[a-zA-Z\-]`. -/
def azDash (c : Char) : Bool := ('a' ≤ c && c ≤ 'z') || ('A' ≤ c && c ≤ 'Z') || c = '-'

/-- The `[a-z\s\.]` under `re.IGNORECASE`. -/
def nameChar (c : Char) : Bool := isAzCI c || isSpacePy c || c = '.'

/-! ### A small regex AST with Python's backtracking semantics

Repetitions are restricted to single character classes, which covers every
pattern appearing in the repository.  `mmatch` returns the list of all ways
to match a prefix of the input, in Python's backtracking priority order
(alternation: left first; `?` and class repetitions: greedy).  `re.search`
is then: first position (leftmost) whose match list is non-empty, first
element of that list. -/

/-- Captured groups: group index paired with the captured characters. -/
abbrev Caps := List (Nat × List Char)

inductive RE where
  | eps : RE
  | lit : Char → RE
  | cls : (Char → Bool) → RE
  | seq : RE → RE → RE
  | alt : RE → RE → RE
  | opt : RE → RE
  | grp : Nat → RE → RE
  | repGE : (Char → Bool) → Nat → RE
  | repB : (Char → Bool) → Nat → Nat → RE
  | endA : RE

/-- Length of the maximal run of class characters at the head of the input. -/
def runLen (p : Char → Bool) : List Char → Nat
  | [] => 0
  | c :: t => if p c then runLen p t + 1 else 0

/-- All prefix matches of `r` against `s`, each as (remaining input, captures),
in Python's backtracking priority order. -/
def mmatch : RE → List Char → List (List Char × Caps)
  | .eps, s => [(s, [])]
  | .lit _, [] => []
  | .lit c, x :: t => if x = c then [(t, [])] else []
  | .cls _, [] => []
  | .cls p, x :: t => if p x then [(t, [])] else []
  | .seq r1 r2, s =>
      (mmatch r1 s).flatMap fun pr =>
        (mmatch r2 pr.1).map fun qr => (qr.1, pr.2 ++ qr.2)
  | .alt r1 r2, s => mmatch r1 s ++ mmatch r2 s
  | .opt r, s => mmatch r s ++ [(s, [])]
  | .grp n r, s =>
      (mmatch r s).map fun pr => (pr.1, pr.2 ++ [(n, s.take (s.length - pr.1.length))])
  | .repGE p mn, s =>
      let mx := runLen p s
      if mx < mn then [] else (List.range (mx - mn + 1)).map fun k => (s.drop (mx - k), [])
  | .repB p mn mxb, s =>
      let mx := min mxb (runLen p s)
      if mx < mn then [] else (List.range (mx - mn + 1)).map fun k => (s.drop (mx - k), [])
  | .endA, s => if s.isEmpty || s == ['\n'] then [(s, [])] else []

/-- The `re.search`: scan positions left to right, return the first match
(remaining input after the match, captures). -/
def searchAux (r : RE) : List Char → Option (List Char × Caps)
  | [] => (mmatch r []).head?
  | c :: t =>
    match (mmatch r (c :: t)).head? with
    | some m => some m
    | none => searchAux r t

def reSearch (r : RE) (s : List Char) : Option (List Char × Caps) := searchAux r s

/-- The `match.group n` (empty when absent; the embedded code only reads groups
that its pattern always binds). -/
def capGet (cs : Caps) (n : Nat) : List Char :=
  ((cs.find? fun pr => pr.1 == n).map Prod.snd).getD []

/-- The `re.sub(pat, '', s)` for a `^`-anchored pattern: at most one removal,
at the very start. -/
def subAnchor (r : RE) (s : List Char) : List Char :=
  match mmatch r s with
  | m :: _ => m.1
  | [] => s

/-- The `re.sub(pat, '', s)` for a pattern anchored at `$` by its last atom:
a single removal of the leftmost match. -/
def subOnce (r : RE) : List Char → List Char
  | [] => match mmatch r [] with
    | m :: _ => m.1
    | [] => []
  | c :: t => match mmatch r (c :: t) with
    | m :: _ => m.1
    | [] => c :: subOnce r t

/-- The `re.findall` for single-group patterns: repeated search, resuming after
each match end (the repository's patterns never match the empty string). -/
def findAll (r : RE) : Nat → List Char → List (List Char)
  | 0, _ => []
  | fuel + 1, s =>
    match searchAux r s with
    | some (rem, caps) => capGet caps 1 :: findAll r fuel rem
    | none => []

/-- Literal word, case-sensitive. -/
def strLit : List Char → RE
  | [] => .eps
  | c :: t => .seq (.lit c) (strLit t)

/-- A single character under `re.IGNORECASE` (pattern char given lowercase). -/
def litci (c : Char) : RE := .cls fun x => x.toLower == c

/-- Literal word under `re.IGNORECASE` (given in lowercase). -/
def strci : List Char → RE
  | [] => .eps
  | c :: t => .seq (litci c) (strci t)

def strLitS (s : String) : RE := strLit s.data
def strciS (s : String) : RE := strci s.data

/-! ### Python string helpers -/

def pyStrip (l : List Char) : List Char :=
  ((l.dropWhile isSpacePy).reverse.dropWhile isSpacePy).reverse

def pyLower (l : List Char) : List Char := l.map Char.toLower

/-- The `str.title()`-style capitalisation (ASCII). -/
def pyTitleGo : Bool → List Char → List Char
  | _, [] => []
  | prev, c :: t =>
    if isAzCI c then (if prev then c.toLower else c.toUpper) :: pyTitleGo true t
    else c :: pyTitleGo false t

def pyTitle (l : List Char) : List Char := pyTitleGo false l

/-- Python's `needle in hay` for strings: contiguous substring test. -/
def isSubstr (needle : List Char) : List Char → Bool
  | [] => needle == []
  | c :: t => needle.isPrefixOf (c :: t) || isSubstr needle t

/-- The `re.sub(r'\s+', ' ', s)`: collapse whitespace runs to single spaces. -/
def collapseWS : List Char → List Char
  | [] => []
  | [c] => if isSpacePy c then [' '] else [c]
  | c1 :: c2 :: t =>
    if isSpacePy c1 && isSpacePy c2 then collapseWS (c2 :: t)
    else (if isSpacePy c1 then ' ' else c1) :: collapseWS (c2 :: t)

/-- The `int` of a digit string. -/
def natOfDigits (l : List Char) : Nat :=
  l.foldl (fun a c => a * 10 + (c.toNat - '0'.toNat)) 0

/-- Rational addition, written out so that it evaluates by kernel reduction
(the library's `Rat.add` is irreducible); `qadd_eq_add` below shows it agrees
with `+`. -/
def qadd (a b : ℚ) : ℚ := mkRat (a.num * b.den + b.num * a.den) (a.den * b.den)

/-- The `float` of a `\d+\.?\d*`-shaped string, as a rational. -/
def decValue (l : List Char) : ℚ :=
  let ip := l.takeWhile fun c => c != '.'
  match l.dropWhile fun c => c != '.' with
  | [] => mkRat (natOfDigits ip) 1
  | _ :: frac => qadd (mkRat (natOfDigits ip) 1) (mkRat (natOfDigits frac) (10 ^ frac.length))

/-- Right-nested concatenation of a pattern list. -/
def reCat : List RE → RE
  | [] => .eps
  | [r] => r
  | r :: t => .seq r (reCat t)

/-- Does any pattern of the list match somewhere in the input
(a `for pattern in patterns: if re.search(...)` loop)? -/
def matchesAny (pats : List RE) (l : List Char) : Bool :=
  pats.any fun r => (reSearch r l).isSome

/-- The `self.base_url` shared by the scrapers. -/
def base_url : String := "https://www.vaidam.com"

/-- The `str.startswith`. -/
def pyStartsWith (s pre : String) : Bool := pre.data.isPrefixOf s.data

/-! ### `vaidam_comprehensive_india_scraper.is_valid_hospital_url_comprehensive` -/

namespace CompIndia

/-- The allow-list of detail-page shapes (`valid_patterns`). -/
def valid_patterns : List RE :=
  [ reCat [strLitS "/hospital", .opt (.lit 's'), .lit '/', .repGE notSlash 1,
      strLitS "/hospital-", .repGE notSlash 1],
    reCat [strLitS "/hospital", .opt (.lit 's'), .lit '/', .repGE notSlash 1,
      strLitS ".html"],
    reCat [strLitS "/hospital/", .repGE notSlash 1],
    reCat [strLitS "/hospitals/", .repGE notSlash 1, .lit '/', .repGE notSlash 1,
      .lit '/', .repGE notSlash 1],
    reCat [strLitS "/hospital", .opt (.lit 's'), strLitS "/india/", .repGE notSlash 1,
      .lit '/', .repGE notSlash 1] ]

/-- The deny-list of listing/search/pagination shapes (`exclude_patterns`). -/
def exclude_patterns : List RE :=
  [ reCat [strLitS "/hospital", .opt (.lit 's'), .opt (.lit '/'), .endA],
    reCat [strLitS "/hospital", .opt (.lit 's'), .lit '/', .repGE notSlash 1,
      .opt (.lit '/'), .endA],
    reCat [strLitS "/hospital", .opt (.lit 's'), strLitS "/india", .opt (.lit '/'), .endA],
    reCat [strLitS "/hospital", .opt (.lit 's'), .lit '/', .repGE notSlash 1,
      .lit '/', .repGE notSlash 1, .opt (.lit '/'), .endA],
    strLitS "page=",
    strLitS "search",
    strLitS "filter",
    strLitS "category" ]

/-- The `is_valid_hospital_url_comprehensive`: origin check, then the allow loop
(early `return True`), then the deny loop (`return False`), then `return False`. -/
def is_valid_hospital_url_comprehensive (url : String) : Bool :=
  if pyStartsWith url Medibudy.base_url then
    if matchesAny valid_patterns url.data then true
    else if matchesAny exclude_patterns url.data then false
    else false
  else false

end CompIndia

/-! ### `scrapers/vaidam_fast_scraper.is_valid_hospital_url` -/

namespace FastScraper

def valid_patterns : List RE :=
  [ reCat [strLitS "/hospital", .opt (.lit 's'), .lit '/', .repGE notSlash 1,
      .opt (.lit '/'), .endA],
    reCat [strLitS "/hospital/", .repGE notSlash 1, .opt (.lit '/'), .endA],
    reCat [strLitS "/hospital-detail/", .repGE notSlash 1, .opt (.lit '/'), .endA],
    reCat [strLitS "/hospital", .opt (.lit 's'), strLitS "/india/", .repGE notSlash 1,
      .opt (.lit '/'), .endA],
    reCat [strLitS "/hospital", .opt (.lit 's'), .lit '/', .repGE azDash 1,
      .lit '/', .repGE notSlash 1, .opt (.lit '/'), .endA] ]

/-- The `is_valid_hospital_url`: origin check, then the allow loop, no deny loop. -/
def is_valid_hospital_url (url : String) : Bool :=
  if pyStartsWith url Medibudy.base_url then matchesAny valid_patterns url.data
  else false

end FastScraper

/-! ### Rating parsers (three importer scripts)

`pd.isna` is `False` for every actual string, so the embeddings take a
`String` and model only the string path. -/

/-- Result of `parse_rating`: the `{'rating': ..., 'total_reviews': ...}` dict. -/
structure RatingResult where
  rating : ℚ
  total_reviews : Nat
deriving DecidableEq, Repr

/-- The `\d+\.?\d*`. -/
def reNum : RE :=
  reCat [.repGE isDigitPy 1, .opt (.lit '.'), .repGE isDigitPy 0]

/-- The `(\d+\.?\d*)\s*\((\d+)\s*Ratings?\)` (case-sensitive). -/
def reRatingCombined : RE :=
  reCat [.grp 1 reNum, .repGE isSpacePy 0, .lit '(', .grp 2 (.repGE isDigitPy 1),
    .repGE isSpacePy 0, strLitS "Rating", .opt (.lit 's'), .lit ')']

/-- The `(\d+\.?\d*)` alone. -/
def reNumGrp : RE := .grp 1 reNum

/-- The `\((\d+)\s*Ratings?\)` under `re.IGNORECASE`. -/
def reReviewsCI : RE :=
  reCat [.lit '(', .grp 1 (.repGE isDigitPy 1), .repGE isSpacePy 0,
    strciS "rating", .opt (litci 's'), .lit ')']

namespace ImportFinal

/-- The `enhanced_hospital_import_final.parse_rating`. -/
def parse_rating (s : String) : RatingResult :=
  match reSearch reRatingCombined s.data with
  | some (_, caps) => ⟨decValue (capGet caps 1), natOfDigits (capGet caps 2)⟩
  | none => ⟨0, 0⟩

end ImportFinal

namespace DoctorsImport

/-- The `enhanced_doctors_import.parse_rating` (same pattern and logic as the
final hospital importer). -/
def parse_rating (s : String) : RatingResult :=
  match reSearch reRatingCombined s.data with
  | some (_, caps) => ⟨decValue (capGet caps 1), natOfDigits (capGet caps 2)⟩
  | none => ⟨0, 0⟩

end DoctorsImport

namespace AnalyzeImport

/-- The `analyze_and_import_hospitals.parse_rating`: the rating and the review
count are extracted by two independent searches. -/
def parse_rating (s : String) : RatingResult :=
  if s = "nan" then ⟨0, 0⟩
  else
    ⟨match reSearch reNumGrp s.data with
      | some (_, caps) => decValue (capGet caps 1)
      | none => 0,
     match reSearch reReviewsCI s.data with
      | some (_, caps) => natOfDigits (capGet caps 1)
      | none => 0⟩

end AnalyzeImport

/-! ### Established-year parsers -/

/-- The `^Established in:\s*` under `re.IGNORECASE` (matched at position 0 only). -/
def reEstPrefixCI : RE := reCat [strciS "established in:", .repGE isSpacePy 0]

/-- The `^Established in:\s*` (case-sensitive). -/
def reEstPrefixCS : RE := reCat [strLitS "Established in:", .repGE isSpacePy 0]

/-- The `(\d{4})`. -/
def reYear4 : RE := .grp 1 (.repB isDigitPy 4 4)

namespace AnalyzeImport

/-- The `analyze_and_import_hospitals.parse_established_year`. -/
def parse_established_year (s : String) : Option Nat :=
  if s = "nan" then none
  else
    match reSearch reYear4 (pyStrip (subAnchor reEstPrefixCI s.data)) with
    | some (_, caps) => some (natOfDigits (capGet caps 1))
    | none => none

end AnalyzeImport

namespace ImportFinal

/-- The `enhanced_hospital_import_final.parse_established_year` (`0` is its
absent value). -/
def parse_established_year (s : String) : Nat :=
  match reSearch reYear4 (subAnchor reEstPrefixCS (pyStrip s.data)) with
  | some (_, caps) => natOfDigits (capGet caps 1)
  | none => 0

end ImportFinal

/-! ### Numeric field extractors of `vaidam_comprehensive_india_scraper`

Each takes the page text (`soup.get_text()`), tries each pattern in turn,
and returns the first parsed value that passes the range check; an
out-of-range match falls through to the next pattern. -/

namespace CompIndia

/-- The four `rating_patterns` (all searched under `re.IGNORECASE`). -/
def rating_patterns : List RE :=
  [ reCat [.grp 1 reNum, .repGE isSpacePy 0,
      .alt (.alt (.alt (reCat [strciS "out", .repGE isSpacePy 0, strciS "of",
                          .repGE isSpacePy 0, .lit '5'])
                      (strLitS "/5"))
                 (.lit '*'))
           (reCat [strciS "star", .opt (litci 's')])],
    reCat [strciS "rating", .opt (.lit ':'), .repGE isSpacePy 0, .grp 1 reNum],
    reCat [.grp 1 reNum, .repGE isSpacePy 0, strciS "rating"],
    reCat [strciS "score", .opt (.lit ':'), .repGE isSpacePy 0, .grp 1 reNum] ]

/-- The four `established_patterns`. -/
def established_patterns : List RE :=
  [ reCat [strciS "established", .repB anyNoNL 0 20, .grp 1 (.repB isDigitPy 4 4)],
    reCat [strciS "founded", .repB anyNoNL 0 20, .grp 1 (.repB isDigitPy 4 4)],
    reCat [strciS "since", .repB anyNoNL 0 20, .grp 1 (.repB isDigitPy 4 4)],
    reCat [strciS "started", .repB anyNoNL 0 20, .grp 1 (.repB isDigitPy 4 4)] ]

/-- The three `beds_patterns`. -/
def beds_patterns : List RE :=
  [ reCat [.grp 1 (.repGE isDigitPy 1), .repGE isSpacePy 0, strciS "bed", .opt (litci 's')],
    reCat [strciS "bed", .repGE isSpacePy 0, strciS "capacity", .opt (.lit ':'),
      .repGE isSpacePy 0, .grp 1 (.repGE isDigitPy 1)],
    reCat [.grp 1 (.repGE isDigitPy 1), .repGE isSpacePy 0, strciS "bed",
      .repGE isSpacePy 0, strciS "hospital"] ]

/-- The pattern loop shared by the rating extractor: first in-range parsed
match wins, out-of-range matches are discarded (the `float(...)` call cannot
raise on a `\d+\.?\d*` group, so the `except` path is dead). -/
def ratingLoop : List RE → List Char → ℚ
  | [], _ => 0
  | p :: ps, l =>
    match reSearch p l with
    | some (_, caps) =>
      if 0 ≤ decValue (capGet caps 1) ∧ decValue (capGet caps 1) ≤ 5 then
        decValue (capGet caps 1)
      else ratingLoop ps l
    | none => ratingLoop ps l

/-- The `extract_rating_comprehensive` (on the page text). -/
def extract_rating_comprehensive (text : String) : ℚ :=
  ratingLoop rating_patterns text.data

/-- The pattern loop shared by the integer extractors. -/
def natLoop (lo hi : Nat) : List RE → List Char → Nat
  | [], _ => 0
  | p :: ps, l =>
    match reSearch p l with
    | some (_, caps) =>
      if lo ≤ natOfDigits (capGet caps 1) ∧ natOfDigits (capGet caps 1) ≤ hi then
        natOfDigits (capGet caps 1)
      else natLoop lo hi ps l
    | none => natLoop lo hi ps l

/-- The `extract_established_comprehensive`: range check `1800 <= year <= 2025`. -/
def extract_established_comprehensive (text : String) : Nat :=
  natLoop 1800 2025 established_patterns text.data

/-- The `extract_beds_comprehensive`: range check `10 <= beds <= 5000`. -/
def extract_beds_comprehensive (text : String) : Nat :=
  natLoop 10 5000 beds_patterns text.data

end CompIndia

/-! ### `scrapers/vaidam_fast_scraper.safe_get`

The session's behaviour is modelled by a map from attempt number to outcome;
sleeps are recorded as events.  An attempt either yields an HTTP response
with a status code and body, or raises. -/

inductive HttpOutcome where
  | resp (status : Nat) (body : String)
  | exc
deriving DecidableEq, Repr

inductive WaitEvent where
  | backoff (seconds : Nat)
  | randomDelay
deriving DecidableEq, Repr

def status200 : HttpOutcome → Bool
  | .resp s _ => s == 200
  | .exc => false

namespace FastScraper

/-- The `for attempt in range(max_retries)` loop of `safe_get`: 200 returns
the body, 429 sleeps `2 ** attempt * 5`, any other status just logs and
retries, an exception sleeps a random delay unless on the last attempt. -/
def safeGetAux (responses : Nat → HttpOutcome) (maxRetries : Nat) :
    Nat → Nat → Option String × List WaitEvent
  | 0, _ => (none, [])
  | fuel + 1, attempt =>
    match responses attempt with
    | .resp status body =>
      if status = 200 then (some body, [])
      else if status = 429 then
        let r := safeGetAux responses maxRetries fuel (attempt + 1)
        (r.1, .backoff (2 ^ attempt * 5) :: r.2)
      else safeGetAux responses maxRetries fuel (attempt + 1)
    | .exc =>
      if attempt < maxRetries - 1 then
        let r := safeGetAux responses maxRetries fuel (attempt + 1)
        (r.1, .randomDelay :: r.2)
      else safeGetAux responses maxRetries fuel (attempt + 1)

/-- The `safe_get` with its default `max_retries=3` supplied by callers. -/
def safe_get (responses : Nat → HttpOutcome) (maxRetries : Nat) :
    Option String × List WaitEvent :=
  safeGetAux responses maxRetries maxRetries 0

end FastScraper

/-! ### MongoDB upserts (`save_to_mongodb`, `save_to_mongodb_comprehensive`)

A collection is a list of documents; a document is its natural key paired
with its payload.  `update_one(filter, {'$set': doc}, upsert=True)` replaces
the first document matching the filter (the `$set` carries the whole
record), or appends the record when no document matches. -/

def updateOneUpsert {κ π : Type} [DecidableEq κ] :
    List (κ × π) → κ → (κ × π) → List (κ × π)
  | [], _, d => [d]
  | r :: t, k, d => if r.1 = k then d :: t else r :: updateOneUpsert t k d

/-- One iteration of the save loop: the filter key is the record's own
natural key (`{'url': hospital['url']}` resp.
`{'name': ..., 'hospital_name': ...}`). -/
def saveUpsert {κ π : Type} [DecidableEq κ] (coll : List (κ × π)) (d : κ × π) :
    List (κ × π) :=
  updateOneUpsert coll d.1 d

/-- The documents of a collection holding a given natural key. -/
def recordsUnder {κ π : Type} [DecidableEq κ] (coll : List (κ × π)) (k : κ) :
    List (κ × π) :=
  coll.filter fun r => r.1 = k

/-! ### Doctor extraction (`scrapers/vaidam_comprehensive_scraper`) -/

/-- A page element: its `get_text()` and the `href` of its first `<a>`, if any. -/
structure DocElement where
  text : String
  href : Option String
deriving DecidableEq, Repr

/-- The `Doctor` dataclass (fields in source order). -/
structure Doctor where
  name : String
  specialization : String
  hospital : String
  location : String
  experience : String
  qualifications : String
  profile_link : String
deriving DecidableEq, Repr

/-- The `dr\.?\s+([a-z\s\.]+)` under `re.IGNORECASE`. -/
def reDrName : RE :=
  reCat [litci 'd', litci 'r', .opt (.lit '.'), .repGE isSpacePy 1,
    .grp 1 (.repGE nameChar 1)]

/-- The `(\d+)\+?\s*years?\s*(?:of\s*)?experience` under `re.IGNORECASE`. -/
def reExperience : RE :=
  reCat [.grp 1 (.repGE isDigitPy 1), .opt (.lit '+'), .repGE isSpacePy 0,
    strciS "year", .opt (litci 's'), .repGE isSpacePy 0,
    .opt (reCat [strciS "of", .repGE isSpacePy 0]), strciS "experience"]

/-- The five qualification patterns `(MBBS[^.]*\.)`, ... under `re.IGNORECASE`. -/
def qualPatterns : List RE :=
  [ .grp 1 (reCat [strciS "mbbs", .repGE notDot 0, .lit '.']),
    .grp 1 (reCat [strciS "md", .repGE notDot 0, .lit '.']),
    .grp 1 (reCat [strciS "ms", .repGE notDot 0, .lit '.']),
    .grp 1 (reCat [strciS "dm", .repGE notDot 0, .lit '.']),
    .grp 1 (reCat [strciS "mch", .repGE notDot 0, .lit '.']) ]

/-- The specialization keyword list. -/
def specializations : List String :=
  ["cardiologist", "oncologist", "orthopedic", "neurologist",
   "gastroenterologist", "urologist", "dermatologist", "gynecologist",
   "pediatrician", "surgeon", "psychiatrist", "radiologist"]

/-- The `urljoin(self.base_url, href)`, modelled for the absolute and
root-relative hrefs the site produces. -/
def urljoinApprox (base href : String) : String :=
  if pyStartsWith href "http" then href else base ++ href

namespace CompScraper

/-- The `extract_doctor_info`: `None` when the name pattern finds nothing,
otherwise a `Doctor` whose name is the stripped first capture. -/
def extract_doctor_info (el : DocElement) (hospitalName hospitalLocation : String) :
    Option Doctor :=
  match reSearch reDrName el.text.data with
  | none => none
  | some (_, caps) =>
    let name := pyStrip (capGet caps 1)
    let textLower := pyLower el.text.data
    let specialization :=
      match specializations.find? fun sp => isSubstr sp.data textLower with
      | some sp => ⟨pyTitle sp.data⟩
      | none => ""
    let experience :=
      match reSearch reExperience el.text.data with
      | some (_, ecaps) => ⟨capGet ecaps 1⟩ ++ " years"
      | none => ""
    let quals := qualPatterns.foldl
      (fun acc p => acc ++ findAll p (el.text.data.length + 1) el.text.data) []
    let qualifications :=
      if quals.isEmpty then "" else String.intercalate ", " (quals.map fun q => ⟨q⟩)
    let profile_link :=
      match el.href with
      | some h => if h = "" then "" else urljoinApprox Medibudy.base_url h
      | none => ""
    some ⟨⟨name⟩, specialization, hospitalName, hospitalLocation, experience,
      qualifications, profile_link⟩

/-- The accumulation loop of `scrape_doctors_for_hospital`:
`if doctor and doctor.name: doctors.append(doctor)`. -/
def scrape_doctors_loop (els : List DocElement) (hospitalName hospitalLocation : String) :
    List Doctor :=
  els.foldl
    (fun acc el =>
      match extract_doctor_info el hospitalName hospitalLocation with
      | some d => if d.name ≠ "" then acc ++ [d] else acc
      | none => acc)
    []

end CompScraper

/-! ### `difflib.SequenceMatcher(None, a, b).ratio()`

Faithful embedding of difflib: `b2j` maps a character to its (ascending)
positions in `b`, dropping "popular" characters when `len(b) >= 200`
(autojunk; `bjunk` itself is empty because no junk predicate is passed, so
the junk extension loops of `find_longest_match` never run). -/

/-- Autojunk: drop characters occurring more than `len(b)//100 + 1` times
when `len(b) >= 200`. -/
def popularCut (b : List Char) (c : Char) : Bool :=
  200 ≤ b.length && b.length / 100 + 1 < b.count c

def b2j (b : List Char) (c : Char) : List Nat :=
  if popularCut b c then []
  else (List.range b.length).filter fun j => b.getD j ' ' == c

def jget (l : List (Nat × Nat)) (j : Nat) : Nat :=
  ((l.find? fun pr => pr.1 == j).map Prod.snd).getD 0

structure FLM where
  besti : Nat
  bestj : Nat
  bestsize : Nat
deriving DecidableEq, Repr

/-- Inner loop of `find_longest_match`: for each position `j` of `a[i]` in
`b` (ascending), chain lengths `newj2len[j] = j2len[j-1] + 1`, keeping the
first longest block. -/
def flmInner (j2len : List (Nat × Nat)) (blo bhi i : Nat) :
    List Nat → FLM → List (Nat × Nat) → FLM × List (Nat × Nat)
  | [], st, acc => (st, acc)
  | j :: rest, st, acc =>
    if j < blo then flmInner j2len blo bhi i rest st acc
    else if bhi ≤ j then (st, acc)
    else
      let k := (if j = 0 then 0 else jget j2len (j - 1)) + 1
      let st' := if st.bestsize < k then FLM.mk (i + 1 - k) (j + 1 - k) k else st
      flmInner j2len blo bhi i rest st' (acc ++ [(j, k)])

def flmOuter (a b : List Char) (blo bhi : Nat) :
    List Nat → FLM → List (Nat × Nat) → FLM
  | [], st, _ => st
  | i :: is, st, j2len =>
    let r := flmInner j2len blo bhi i (b2j b (a.getD i ' ')) st []
    flmOuter a b blo bhi is r.1 r.2

/-- Extension of the best block to the left over equal characters. -/
def extLeft (a b : List Char) (alo blo : Nat) :
    Nat → Nat → Nat → Nat → Nat × Nat × Nat
  | 0, bi, bj, bs => (bi, bj, bs)
  | fuel + 1, bi, bj, bs =>
    if alo < bi && blo < bj && (a.getD (bi - 1) '\x00' == b.getD (bj - 1) '\x01') then
      extLeft a b alo blo fuel (bi - 1) (bj - 1) (bs + 1)
    else (bi, bj, bs)

/-- Extension of the best block to the right over equal characters. -/
def extRight (a b : List Char) (ahi bhi : Nat) :
    Nat → Nat → Nat → Nat → Nat
  | 0, _, _, bs => bs
  | fuel + 1, bi, bj, bs =>
    if bi + bs < ahi && bj + bs < bhi && (a.getD (bi + bs) '\x00' == b.getD (bj + bs) '\x01') then
      extRight a b ahi bhi fuel bi bj (bs + 1)
    else bs

def find_longest_match (a b : List Char) (alo ahi blo bhi : Nat) : Nat × Nat × Nat :=
  let st := flmOuter a b blo bhi (List.range' alo (ahi - alo)) (FLM.mk alo blo 0) []
  let e := extLeft a b alo blo st.besti st.besti st.bestj st.bestsize
  let bs := extRight a b ahi bhi ahi e.1 e.2.1 e.2.2
  (e.1, e.2.1, bs)

/-- Total size of all matching blocks (the recursion of
`get_matching_blocks`, keeping only what `ratio` needs). -/
def matchSum (a b : List Char) : Nat → Nat → Nat → Nat → Nat → Nat
  | 0, _, _, _, _ => 0
  | fuel + 1, alo, ahi, blo, bhi =>
    let r := find_longest_match a b alo ahi blo bhi
    if r.2.2 = 0 then 0
    else r.2.2 + matchSum a b fuel alo r.1 blo r.2.1
      + matchSum a b fuel (r.1 + r.2.2) ahi (r.2.1 + r.2.2) bhi

/-- The `SequenceMatcher.ratio()`: `2*M / (len(a)+len(b))`, `1.0` on two empties. -/
def smRatio (a b : List Char) : ℚ :=
  if a.length + b.length = 0 then 1
  else mkRat (2 * matchSum a b (a.length + 1) 0 a.length 0 b.length) (a.length + b.length)

/-! ### `enhanced_doctors_import.clean_hospital_name` and
`find_matching_hospital` -/

/-- Right-nested alternation, tried in listed order. -/
def reAlts : List RE → RE
  | [] => .eps
  | [r] => r
  | r :: t => .alt r (reAlts t)

/-- The `,?\s*(New Delhi|Delhi|Mumbai|Bangalore|Chennai|Kolkata|Hyderabad|Pune|Gurgaon)$`
under `re.IGNORECASE`. -/
def reCitySuffix : RE :=
  reCat [.opt (.lit ','), .repGE isSpacePy 0,
    .grp 1 (reAlts [strciS "new delhi", strciS "delhi", strciS "mumbai",
      strciS "bangalore", strciS "chennai", strciS "kolkata",
      strciS "hyderabad", strciS "pune", strciS "gurgaon"]),
    .endA]

namespace DoctorsImport

/-- The `clean_hospital_name` (the `pd.isna` branch is dead for actual strings). -/
def clean_hospital_name (s : String) : List Char :=
  pyStrip (collapseWS (subOnce reCitySuffix (pyStrip s.data)))

/-- A candidate hospital document: `name`, `location.city`, `_id`. -/
structure HospitalDoc where
  name : String
  city : String
  id : String
deriving DecidableEq, Repr

/-- Per-candidate total score: SequenceMatcher ratio of the cleaned,
lowered names, `+0.2` when the cities match (and the doctor city is
non-empty), `+0.3` when either name contains the other. -/
def totalScore (cdh cdc : List Char) (h : HospitalDoc) : ℚ :=
  let hname := pyLower h.name.data
  let hcity := pyLower h.city.data
  let nameSim := smRatio cdh hname
  let cityBonus : ℚ := if cdc ≠ [] ∧ cdc = hcity then mkRat 1 5 else 0
  let substrBonus : ℚ := if isSubstr cdh hname || isSubstr hname cdh then mkRat 3 10 else 0
  qadd (qadd nameSim cityBonus) substrBonus

/-- The candidate loop: keep the first strict maximum above the `0.6`
threshold. -/
def findLoop (cdh cdc : List Char) :
    List HospitalDoc → ℚ → Option String → Option String
  | [], _, best => best
  | h :: t, bestScore, best =>
    if totalScore cdh cdc h > bestScore ∧ totalScore cdh cdc h > mkRat 3 5 then
      findLoop cdh cdc t (totalScore cdh cdc h) (some h.id)
    else findLoop cdh cdc t bestScore best

/-- The `find_matching_hospital` (an empty name or an empty candidate list is
falsy and short-circuits to `None`). -/
def find_matching_hospital (doctor_hospital doctor_city : String)
    (hs : List HospitalDoc) : Option String :=
  if doctor_hospital = "" ∨ hs = [] then none
  else findLoop (pyLower (clean_hospital_name doctor_hospital))
    (pyLower doctor_city.data) hs 0 none

end DoctorsImport

/-! ### Vocabulary for the well-formed input shapes of the claims -/

/-- Does the list start with four consecutive decimal digits? -/
def startsRun4 : List Char → Bool
  | a :: b :: c :: d :: _ => isDigitPy a && isDigitPy b && isDigitPy c && isDigitPy d
  | _ => false

/-- Does the list contain four consecutive decimal digits anywhere
(exactly when `re.search(r'(\d{4})', ...)` succeeds)? -/
def hasRun4 : List Char → Bool
  | [] => false
  | a :: t => startsRun4 (a :: t) || hasRun4 t

/-- The text of a decimal number `R`: integer digits, optionally followed by
a dot and fractional digits. -/
def numStr (ds : List Char) (fr : Option (List Char)) : List Char :=
  ds ++ (match fr with | some f => '.' :: f | none => [])

/-- The text `"R (N Ratings)"`. -/
def ratingStr (ds : List Char) (fr : Option (List Char)) (ns : List Char) : List Char :=
  numStr ds fr ++ " (".data ++ ns ++ " Ratings)".data

/-! ## Lemma toolkit for the regex engine

`MHead r s m` says `m` is the highest-priority match of `r` against `s` —
the one Python returns. -/

theorem qadd_eq_add (a b : ℚ) : qadd a b = a + b := (Rat.add_def' a b).symm

def MHead (r : RE) (s : List Char) (m : List Char × Caps) : Prop :=
  ∃ t, mmatch r s = m :: t

theorem mhead_eps (s : List Char) : MHead .eps s (s, []) := ⟨[], rfl⟩

theorem mhead_lit (c : Char) (t : List Char) : MHead (.lit c) (c :: t) (t, []) :=
  ⟨[], by simp [mmatch]⟩

theorem mhead_cls (p : Char → Bool) (x : Char) (t : List Char) (h : p x = true) :
    MHead (.cls p) (x :: t) (t, []) :=
  ⟨[], by simp [mmatch, h]⟩

theorem mhead_seq {r1 r2 : RE} {s s1 s2 : List Char} {c1 c2 : Caps}
    (h1 : MHead r1 s (s1, c1)) (h2 : MHead r2 s1 (s2, c2)) :
    MHead (.seq r1 r2) s (s2, c1 ++ c2) := by
  obtain ⟨t1, e1⟩ := h1
  obtain ⟨t2, e2⟩ := h2
  refine ⟨t2.map (fun qr => (qr.1, c1 ++ qr.2)) ++
    t1.flatMap (fun pr => (mmatch r2 pr.1).map fun qr => (qr.1, pr.2 ++ qr.2)), ?_⟩
  simp [mmatch, e1, e2]

theorem mhead_grp {r : RE} {u s1 : List Char} {c1 : Caps} (n : Nat)
    (h : MHead r (u ++ s1) (s1, c1)) :
    MHead (.grp n r) (u ++ s1) (s1, c1 ++ [(n, u)]) := by
  obtain ⟨t, e⟩ := h
  refine ⟨t.map fun pr =>
    (pr.1, pr.2 ++ [(n, (u ++ s1).take ((u ++ s1).length - pr.1.length))]), ?_⟩
  have hl : (u ++ s1).length - s1.length = u.length := by simp
  simp [mmatch, e, hl]

theorem mhead_opt_yes {r : RE} {s : List Char} {m : List Char × Caps}
    (h : MHead r s m) : MHead (.opt r) s m := by
  obtain ⟨t, e⟩ := h
  exact ⟨t ++ [(s, [])], by simp [mmatch, e]⟩

theorem mhead_opt_no {r : RE} {s : List Char} (h : mmatch r s = []) :
    MHead (.opt r) s (s, []) :=
  ⟨[], by simp [mmatch, h]⟩

theorem runLen_nil (p : Char → Bool) : runLen p [] = 0 := rfl

theorem runLen_head_false {p : Char → Bool} {s : List Char}
    (h : ∀ c, s.head? = some c → p c = false) : runLen p s = 0 := by
  cases s with
  | nil => rfl
  | cons c t => simp [runLen, h c rfl]

theorem runLen_append {p : Char → Bool} {u rest : List Char}
    (hu : ∀ c ∈ u, p c = true)
    (hrest : ∀ c, rest.head? = some c → p c = false) :
    runLen p (u ++ rest) = u.length := by
  induction u with
  | nil => simpa using runLen_head_false hrest
  | cons c t ih =>
    have hc : p c = true := hu c (by simp)
    simp [runLen, hc, ih fun x hx => hu x (by simp [hx])]

theorem mhead_repGE {p : Char → Bool} {u rest : List Char} {mn : Nat}
    (hu : ∀ c ∈ u, p c = true)
    (hrest : ∀ c, rest.head? = some c → p c = false)
    (hmn : mn ≤ u.length) :
    MHead (.repGE p mn) (u ++ rest) (rest, []) := by
  have hrun : runLen p (u ++ rest) = u.length := runLen_append hu hrest
  refine ⟨((List.range (u.length - mn)).map Nat.succ).map
    (fun k => ((u ++ rest).drop (u.length - k), ([] : Caps))), ?_⟩
  simp only [mmatch, hrun]
  rw [if_neg (by omega), List.range_succ_eq_map, List.map_cons, List.map_map]
  simp

theorem mhead_repB {p : Char → Bool} {u rest : List Char} {mn mxb : Nat}
    (hu : ∀ c ∈ u, p c = true)
    (hrest : ∀ c, rest.head? = some c → p c = false)
    (hmn : mn ≤ u.length) (hmx : u.length ≤ mxb) :
    MHead (.repB p mn mxb) (u ++ rest) (rest, []) := by
  have hrun : runLen p (u ++ rest) = u.length := runLen_append hu hrest
  refine ⟨((List.range (u.length - mn)).map Nat.succ).map
    (fun k => ((u ++ rest).drop (u.length - k), ([] : Caps))), ?_⟩
  simp only [mmatch, hrun]
  rw [min_eq_right hmx, if_neg (by omega), List.range_succ_eq_map, List.map_cons,
    List.map_map]
  simp

theorem mhead_strLit {u rest : List Char} : MHead (strLit u) (u ++ rest) (rest, []) := by
  induction u with
  | nil => exact mhead_eps rest
  | cons c t ih =>
    have := mhead_seq (mhead_lit c (t ++ rest)) ih
    simpa [strLit] using this

theorem mhead_strci {v rest : List Char} {w : List Char}
    (h : v.map Char.toLower = w) : MHead (strci w) (v ++ rest) (rest, []) := by
  induction v generalizing w with
  | nil => cases h; exact mhead_eps rest
  | cons c t ih =>
    cases h
    have hc : MHead (litci c.toLower) (c :: (t ++ rest)) (t ++ rest, []) :=
      mhead_cls _ c (t ++ rest) (by simp [litci])
    have := mhead_seq hc (ih rfl)
    simpa [strci] using this

/-! Search lemmas. -/

theorem searchAux_of_mhead {r : RE} {s : List Char} {m : List Char × Caps}
    (h : MHead r s m) : searchAux r s = some m := by
  obtain ⟨t, e⟩ := h
  cases s with
  | nil => simp [searchAux, e]
  | cons c u => simp [searchAux, e]

theorem searchAux_skip {r : RE} {pre rest : List Char}
    (h : ∀ c t, c ∈ pre → mmatch r (c :: t) = []) :
    searchAux r (pre ++ rest) = searchAux r rest := by
  induction pre with
  | nil => rfl
  | cons c u ih =>
    have hc : mmatch r (c :: (u ++ rest)) = [] := h c (u ++ rest) (by simp)
    have step : searchAux r ((c :: u) ++ rest) = searchAux r (u ++ rest) := by
      show (match (mmatch r (c :: (u ++ rest))).head? with
        | some m => some m
        | none => searchAux r (u ++ rest)) = searchAux r (u ++ rest)
      rw [hc]
      rfl
    rw [step]
    exact ih fun x t hx => h x t (by simp [hx])

theorem searchAux_nil_none {r : RE} (h : mmatch r [] = []) :
    searchAux r [] = none := by simp [searchAux, h]

theorem subAnchor_of_mhead {r : RE} {s : List Char} {m : List Char × Caps}
    (h : MHead r s m) : subAnchor r s = m.1 := by
  obtain ⟨t, e⟩ := h
  simp [subAnchor, e]

/-! First-atom failure lemmas, used to step a search past non-matching
positions. -/

theorem mmatch_seq_nil {r1 r2 : RE} {s : List Char} (h : mmatch r1 s = []) :
    mmatch (.seq r1 r2) s = [] := by simp [mmatch, h]

theorem mmatch_grp_nil {r : RE} {n : Nat} {s : List Char} (h : mmatch r s = []) :
    mmatch (.grp n r) s = [] := by simp [mmatch, h]

theorem mmatch_lit_cons_nil {c d : Char} {t : List Char} (h : c ≠ d) :
    mmatch (.lit d) (c :: t) = [] := by simp [mmatch, h]

theorem mmatch_cls_cons_nil {p : Char → Bool} {c : Char} {t : List Char}
    (h : p c = false) : mmatch (.cls p) (c :: t) = [] := by simp [mmatch, h]

theorem mmatch_repGE_cons_nil {p : Char → Bool} {c : Char} {t : List Char} {mn : Nat}
    (h : p c = false) (hmn : 0 < mn) : mmatch (.repGE p mn) (c :: t) = [] := by
  have : runLen p (c :: t) = 0 := by simp [runLen, h]
  simp only [mmatch, this]
  rw [if_pos hmn]

theorem mmatch_repB_nil {p : Char → Bool} {s : List Char} {mn mxb : Nat}
    (h : min mxb (runLen p s) < mn) : mmatch (.repB p mn mxb) s = [] := by
  simp only [mmatch]
  rw [if_pos h]

set_option maxRecDepth 20000

/-! ## Claim C1 -/

/-- Claim C1 (counterexample): a URL matching both an allow-list detail-page
pattern and a deny-list pagination pattern is *accepted* by
`is_valid_hospital_url_comprehensive`, not rejected — the allow loop returns
before the deny loop runs. -/
theorem claim_C1_counterexample :
    matchesAny CompIndia.valid_patterns
      "https://www.vaidam.com/hospitals/chennai/hospital-apollo?page=2".data = true ∧
    matchesAny CompIndia.exclude_patterns
      "https://www.vaidam.com/hospitals/chennai/hospital-apollo?page=2".data = true ∧
    CompIndia.is_valid_hospital_url_comprehensive
      "https://www.vaidam.com/hospitals/chennai/hospital-apollo?page=2" = true := by
  refine ⟨by decide, by decide, by decide⟩

/-- Claim C1 (amended): the comprehensive validator checks the allow-list
first and accepts immediately on a match; the deny-list only applies to URLs
matching no allow pattern, and every path after the allow loop returns
`False`, so the validator accepts exactly the base-origin URLs matching an
allow pattern and the deny-list can never veto an allow match. -/
theorem claim_C1_amended (url : String) :
    CompIndia.is_valid_hospital_url_comprehensive url =
      (pyStartsWith url Medibudy.base_url && matchesAny CompIndia.valid_patterns url.data) := by
  unfold CompIndia.is_valid_hospital_url_comprehensive
  cases hA : pyStartsWith url Medibudy.base_url <;>
    cases hB : matchesAny CompIndia.valid_patterns url.data <;>
      cases hC : matchesAny CompIndia.exclude_patterns url.data <;> simp [hA, hB, hC]

/-! ## Claim C2 -/

/-- Claim C2 (counterexample): the fast scraper's URL validator *accepts*
the bare listing `/hospitals/india` (its allow pattern
`/hospitals?/[^/]+/?$` matches any single-segment hospitals URL). -/
theorem claim_C2_counterexample :
    FastScraper.is_valid_hospital_url "https://www.vaidam.com/hospitals/india" = true := by
  decide

/-- Claim C2 (amended): the comprehensive validator rejects the bare listing
`/hospitals/india` and accepts the detail page
`/hospitals/chennai/hospital-apollo`; the fast scraper's validator accepts
the detail page as well (but, per the counterexample, also the listing). -/
theorem claim_C2_amended :
    CompIndia.is_valid_hospital_url_comprehensive
      "https://www.vaidam.com/hospitals/india" = false ∧
    CompIndia.is_valid_hospital_url_comprehensive
      "https://www.vaidam.com/hospitals/chennai/hospital-apollo" = true ∧
    FastScraper.is_valid_hospital_url
      "https://www.vaidam.com/hospitals/chennai/hospital-apollo" = true := by
  refine ⟨by decide, by decide, by decide⟩

/-! ## Claim C7 -/

theorem safeGetAux_congr (f g : Nat → HttpOutcome) (m : Nat) :
    ∀ fuel attempt, (∀ i, attempt ≤ i → i < attempt + fuel → f i = g i) →
      FastScraper.safeGetAux f m fuel attempt = FastScraper.safeGetAux g m fuel attempt := by
  intro fuel
  induction fuel with
  | zero => intro attempt _; rfl
  | succ n ih =>
    intro attempt h
    have hat : f attempt = g attempt := h attempt le_rfl (by omega)
    have hrec : FastScraper.safeGetAux f m n (attempt + 1)
        = FastScraper.safeGetAux g m n (attempt + 1) :=
      ih (attempt + 1) fun i hi1 hi2 => h i (by omega) (by omega)
    simp only [FastScraper.safeGetAux, hat, hrec]

theorem safeGetAux_backoff (f : Nat → HttpOutcome) (m : Nat) :
    ∀ fuel attempt i b, attempt ≤ i → i < attempt + fuel →
      (∀ j, attempt ≤ j → j < i → status200 (f j) = false) →
      f i = .resp 429 b →
      WaitEvent.backoff (2 ^ i * 5) ∈ (FastScraper.safeGetAux f m fuel attempt).2 := by
  intro fuel
  induction fuel with
  | zero => intro attempt i b h1 h2 _ _; exact absurd h2 (by omega)
  | succ n ih =>
    intro attempt i b h1 h2 hprev hfi
    by_cases hai : i = attempt
    · subst hai
      simp [FastScraper.safeGetAux, hfi]
    · have hlt : attempt < i := lt_of_le_of_ne h1 (Ne.symm hai)
      have hnext : WaitEvent.backoff (2 ^ i * 5)
          ∈ (FastScraper.safeGetAux f m n (attempt + 1)).2 :=
        ih (attempt + 1) i b (by omega) (by omega)
          (fun j hj1 hj2 => hprev j (by omega) hj2) hfi
      have h200 : status200 (f attempt) = false := hprev attempt le_rfl hlt
      rcases hfa : f attempt with ⟨s, bod⟩ | _
      · have hs : s ≠ 200 := by
          rw [hfa] at h200
          simpa [status200] using h200
        simp only [FastScraper.safeGetAux, hfa]
        rw [if_neg hs]
        by_cases h429 : s = 429
        · rw [if_pos h429]
          exact List.mem_cons_of_mem _ hnext
        · rw [if_neg h429]
          exact hnext
      · simp only [FastScraper.safeGetAux, hfa]
        by_cases hm : attempt < m - 1
        · rw [if_pos hm]
          exact List.mem_cons_of_mem _ hnext
        · rw [if_neg hm]
          exact hnext

theorem safeGetAux_none (f : Nat → HttpOutcome) (m : Nat) :
    ∀ fuel attempt, (∀ i, attempt ≤ i → i < attempt + fuel → status200 (f i) = false) →
      (FastScraper.safeGetAux f m fuel attempt).1 = none := by
  intro fuel
  induction fuel with
  | zero => intro attempt _; rfl
  | succ n ih =>
    intro attempt h
    have hnext : (FastScraper.safeGetAux f m n (attempt + 1)).1 = none :=
      ih (attempt + 1) fun i hi1 hi2 => h i (by omega) (by omega)
    have h200 : status200 (f attempt) = false := h attempt le_rfl (by omega)
    rcases hfa : f attempt with ⟨s, bod⟩ | _
    · have hs : s ≠ 200 := by
        rw [hfa] at h200
        simpa [status200] using h200
      simp only [FastScraper.safeGetAux, hfa]
      rw [if_neg hs]
      by_cases h429 : s = 429
      · rw [if_pos h429]
        exact hnext
      · rw [if_neg h429]
        exact hnext
    · simp only [FastScraper.safeGetAux, hfa]
      by_cases hm : attempt < m - 1
      · rw [if_pos hm]
        exact hnext
      · rw [if_neg hm]
        exact hnext

/-- Claim C7 (counterexample): a 500 on the first attempt followed by a 200
on the second yields the 200 body — a non-2xx, non-429 response is retried,
not treated as a non-retryable failure. -/
theorem claim_C7_counterexample :
    FastScraper.safe_get
      (fun i => if i = 0 then .resp 500 "server error" else .resp 200 "ok") 3
      = (some "ok", []) := by decide

/-- Claim C7 (amended): `safe_get` makes at most `max_retries` attempts
(callers use the default 3, within the claimed 3–5 bound): its result
depends only on the first `max_retries` outcomes; a 429 on attempt `i`
(reached because no earlier attempt returned 200) records a backoff of
`5 * 2^i` seconds; other non-2xx responses and exceptions are also retried;
and when no attempt returns 200 the result is `None` rather than an
exception. -/
theorem claim_C7_amended :
    (∀ f g m, (∀ i, i < m → f i = g i) →
      FastScraper.safe_get f m = FastScraper.safe_get g m) ∧
    (∀ f m i b, i < m → (∀ j, j < i → status200 (f j) = false) →
      f i = HttpOutcome.resp 429 b →
      WaitEvent.backoff (2 ^ i * 5) ∈ (FastScraper.safe_get f m).2) ∧
    (∀ f m, (∀ i, i < m → status200 (f i) = false) →
      (FastScraper.safe_get f m).1 = none) := by
  refine ⟨?_, ?_, ?_⟩
  · intro f g m h
    exact safeGetAux_congr f g m m 0 fun i _ hi2 => h i (by omega)
  · intro f m i b hi hprev hfi
    exact safeGetAux_backoff f m m 0 i b (by omega) (by omega)
      (fun j _ hj2 => hprev j hj2) hfi
  · intro f m h
    exact safeGetAux_none f m m 0 fun i _ hi2 => h i (by omega)

/-- Claim C7 (witness): on a stream of nothing but 429s with 3 attempts the
first backoff of 5 seconds is recorded and the overall result is `None`. -/
theorem claim_C7_witness :
    WaitEvent.backoff 5 ∈ (FastScraper.safe_get (fun _ => .resp 429 "x") 3).2 ∧
    (FastScraper.safe_get (fun _ => .resp 429 "x") 3).1 = none :=
  ⟨claim_C7_amended.2.1 (fun _ => .resp 429 "x") 3 0 "x" (by decide)
      (fun j hj => absurd hj (Nat.not_lt_zero j)) rfl,
   claim_C7_amended.2.2 (fun _ => .resp 429 "x") 3 (fun i _ => rfl)⟩

/-! ## Claim C8 -/

/-- Claim C8 (counterexample): on a collection state that already holds two
documents under the natural key, two upserts still leave two documents —
`update_one` only rewrites the first match, so the "for every collection
state" claim fails. -/
theorem claim_C8_counterexample :
    recordsUnder
      (saveUpsert (saveUpsert [("u", "p1"), ("u", "p2")] ("u", "q1")) ("u", "q2")) "u"
      = [("u", "q2"), ("u", "p2")] ∧
    (recordsUnder
      (saveUpsert (saveUpsert [("u", "p1"), ("u", "p2")] ("u", "q1")) ("u", "q2")) "u").length
      ≠ 1 := by
  refine ⟨by decide, by decide⟩

/-- Claim C8 (amended): on every collection state holding at most one
document under the natural key (the invariant maintained by upsert-only
writes), upserting twice under that key leaves exactly one document, with
the latest payload. -/
theorem claim_C8_amended {κ π : Type} [DecidableEq κ] (coll : List (κ × π)) (k : κ)
    (p q : π) (h : (recordsUnder coll k).length ≤ 1) :
    recordsUnder (saveUpsert (saveUpsert coll (k, p)) (k, q)) k = [(k, q)] := by
  revert h
  induction coll with
  | nil => intro _; simp [saveUpsert, updateOneUpsert, recordsUnder]
  | cons r t ih =>
    intro h
    by_cases hr : r.1 = k
    · have hcons : recordsUnder (r :: t) k = r :: recordsUnder t k := by
        simp [recordsUnder, List.filter_cons, hr]
      have hfil : recordsUnder t k = [] := by
        rw [hcons] at h
        simp only [List.length_cons] at h
        exact List.length_eq_zero.mp (by omega)
      have h1 : saveUpsert (r :: t) (k, p) = (k, p) :: t := by
        simp [saveUpsert, updateOneUpsert, hr]
      have h2 : saveUpsert ((k, p) :: t) (k, q) = (k, q) :: t := by
        simp [saveUpsert, updateOneUpsert]
      rw [h1, h2]
      have hq : recordsUnder ((k, q) :: t) k = (k, q) :: recordsUnder t k := by
        simp [recordsUnder, List.filter_cons]
      rw [hq, hfil]
    · have hcons : recordsUnder (r :: t) k = recordsUnder t k := by
        simp [recordsUnder, List.filter_cons, hr]
      have h' : (recordsUnder t k).length ≤ 1 := by
        rw [hcons] at h
        exact h
      have h1 : saveUpsert (r :: t) (k, p) = r :: saveUpsert t (k, p) := by
        simp [saveUpsert, updateOneUpsert, hr]
      have h2 : saveUpsert (r :: saveUpsert t (k, p)) (k, q)
          = r :: saveUpsert (saveUpsert t (k, p)) (k, q) := by
        simp [saveUpsert, updateOneUpsert, hr]
      rw [h1, h2]
      have hskip : recordsUnder (r :: saveUpsert (saveUpsert t (k, p)) (k, q)) k
          = recordsUnder (saveUpsert (saveUpsert t (k, p)) (k, q)) k := by
        simp [recordsUnder, List.filter_cons, hr]
      rw [hskip]
      exact ih h'

/-- Claim C8 (witness): the amended idempotence at a concrete collection. -/
theorem claim_C8_witness :
    recordsUnder (saveUpsert (saveUpsert [("a", "x")] ("u", "p")) ("u", "q")) "u"
      = [("u", "q")] :=
  claim_C8_amended [("a", "x")] "u" "p" "q" (by decide)

/-! ## Claim C9 -/

theorem scrapeLoop_names_aux (hn hl : String) :
    ∀ (els : List DocElement) (acc : List Doctor), (∀ d ∈ acc, d.name ≠ "") →
      ∀ d ∈ els.foldl
        (fun acc el =>
          match CompScraper.extract_doctor_info el hn hl with
          | some d => if d.name ≠ "" then acc ++ [d] else acc
          | none => acc) acc, d.name ≠ "" := by
  intro els
  induction els with
  | nil => intro acc hacc d hd; exact hacc d hd
  | cons el t ih =>
    intro acc hacc d hd
    rw [List.foldl_cons] at hd
    refine ih _ ?_ d hd
    cases hext : CompScraper.extract_doctor_info el hn hl with
    | none => simpa [hext] using hacc
    | some d0 =>
      intro d' hd'
      simp only [hext] at hd'
      by_cases hname : d0.name ≠ ""
      · rw [if_pos hname] at hd'
        rcases List.mem_append.mp hd' with hmem | hmem
        · exact hacc d' hmem
        · rw [List.mem_singleton.mp hmem]
          exact hname
      · rw [if_neg hname] at hd'
        exact hacc d' hd'

/-- Claim C9 (counterexample): on the element text `"dr  "` the extractor
returns a record whose stripped name is *empty* — the regex backtracks so
the name group captures a single space — rather than a non-empty name or
`None`. -/
theorem claim_C9_counterexample :
    CompScraper.extract_doctor_info ⟨"dr  ", none⟩ "H" "L"
      = some ⟨"", "", "H", "L", "", "", ""⟩ := by decide

/-- Claim C9 (amended): the extractor returns `None` when the name pattern
finds nothing but can return a record with an empty stripped name; the
accumulation loop filters on name truthiness, so every doctor record it
accumulates has a non-empty name. -/
theorem claim_C9_amended (els : List DocElement) (hn hl : String) :
    ∀ d ∈ CompScraper.scrape_doctors_loop els hn hl, d.name ≠ "" := by
  have := scrapeLoop_names_aux hn hl els [] (by simp)
  simpa [CompScraper.scrape_doctors_loop] using this

/-- Claim C9 (witness): the amended invariant at a concrete element list. -/
theorem claim_C9_witness :
    (⟨"John Smith", "", "H", "L", "", "", ""⟩ : Doctor).name ≠ "" :=
  claim_C9_amended [⟨"Dr. John Smith", none⟩] "H" "L"
    ⟨"John Smith", "", "H", "L", "", "", ""⟩ (by decide)

/-! ## Claim C3 -/

theorem findLoop_some_ne_none (cdh cdc : List Char) :
    ∀ (hs : List DoctorsImport.HospitalDoc) (bs : ℚ) (x : String),
      DoctorsImport.findLoop cdh cdc hs bs (some x) ≠ none := by
  intro hs
  induction hs with
  | nil => intro bs x h; exact Option.noConfusion h
  | cons h t ih =>
    intro bs x hno
    unfold DoctorsImport.findLoop at hno
    split at hno
    · exact ih _ _ hno
    · exact ih _ _ hno

theorem findLoop_mem (cdh cdc : List Char) :
    ∀ (hs : List DoctorsImport.HospitalDoc) (bs : ℚ) (b : Option String) (i : String),
      DoctorsImport.findLoop cdh cdc hs bs b = some i →
      b = some i ∨ ∃ h ∈ hs, i = h.id ∧ DoctorsImport.totalScore cdh cdc h > mkRat 3 5 := by
  intro hs
  induction hs with
  | nil => intro bs b i h; exact Or.inl h
  | cons h t ih =>
    intro bs b i hsome
    unfold DoctorsImport.findLoop at hsome
    split at hsome
    · rename_i hcond
      rcases ih _ _ _ hsome with heq | ⟨h', hmem, hh'⟩
      · exact Or.inr ⟨h, by simp, (Option.some_injective _ heq.symm : i = h.id), hcond.2⟩
      · exact Or.inr ⟨h', by simp [hmem], hh'⟩
    · rcases ih _ _ _ hsome with heq | ⟨h', hmem, hh'⟩
      · exact Or.inl heq
      · exact Or.inr ⟨h', by simp [hmem], hh'⟩

theorem findLoop_none_iff (cdh cdc : List Char) :
    ∀ (hs : List DoctorsImport.HospitalDoc) (bs : ℚ),
      (DoctorsImport.findLoop cdh cdc hs bs none = none ↔
        ∀ h ∈ hs, ¬(DoctorsImport.totalScore cdh cdc h > bs ∧
          DoctorsImport.totalScore cdh cdc h > mkRat 3 5)) := by
  intro hs
  induction hs with
  | nil => intro bs; simp [DoctorsImport.findLoop]
  | cons h t ih =>
    intro bs
    unfold DoctorsImport.findLoop
    split
    · rename_i hcond
      constructor
      · intro hno
        exact absurd hno (findLoop_some_ne_none cdh cdc t _ _)
      · intro hall
        exact absurd hcond (hall h (by simp))
    · rename_i hcond
      rw [ih bs]
      constructor
      · intro hall
        intro h' hmem
        rcases List.mem_cons.mp hmem with rfl | hmem'
        · exact hcond
        · exact hall h' hmem'
      · intro hall h' hmem'
        exact hall h' (by simp [hmem'])

/-- Claim C3 (confirmed): for a non-empty dependent hospital name and a
non-empty candidate list, `find_matching_hospital` returns a candidate
`_id` only when that candidate's total score (SequenceMatcher ratio plus
`0.2` locality bonus plus `0.3` containment bonus, as `totalScore` unfolds)
strictly exceeds `0.6`, and returns `None` exactly when every candidate's
total score is at most `0.6`; on `"Apollo Hospital"`/`"Chennai"` against
`{name: "Apollo Hospitals", locality: "Chennai"}` the candidate is
selected. -/
theorem claim_C3 :
    (∀ (dh dc : String) (hs : List DoctorsImport.HospitalDoc), dh ≠ "" → hs ≠ [] →
      (∀ i, DoctorsImport.find_matching_hospital dh dc hs = some i →
        ∃ h ∈ hs, i = h.id ∧
          DoctorsImport.totalScore (pyLower (DoctorsImport.clean_hospital_name dh))
            (pyLower dc.data) h > mkRat 3 5) ∧
      (DoctorsImport.find_matching_hospital dh dc hs = none ↔
        ∀ h ∈ hs,
          DoctorsImport.totalScore (pyLower (DoctorsImport.clean_hospital_name dh))
            (pyLower dc.data) h ≤ mkRat 3 5)) ∧
    DoctorsImport.find_matching_hospital "Apollo Hospital" "Chennai"
      [⟨"Apollo Hospitals", "Chennai", "h1"⟩] = some "h1" := by
  constructor
  · intro dh dc hs hdh hhs
    have hguard : ¬(dh = "" ∨ hs = []) := by
      rintro (h | h)
      · exact hdh h
      · exact hhs h
    have hunf : DoctorsImport.find_matching_hospital dh dc hs =
        DoctorsImport.findLoop (pyLower (DoctorsImport.clean_hospital_name dh))
          (pyLower dc.data) hs 0 none := by
      unfold DoctorsImport.find_matching_hospital
      rw [if_neg hguard]
    constructor
    · intro i hsome
      rw [hunf] at hsome
      rcases findLoop_mem _ _ hs 0 none i hsome with heq | hex
      · exact Option.noConfusion heq
      · exact hex
    · rw [hunf, findLoop_none_iff]
      have hthr : (0 : ℚ) < mkRat 3 5 := by decide
      constructor
      · intro hall h hmem
        have := hall h hmem
        by_contra hgt
        push_neg at hgt
        exact this ⟨lt_trans hthr hgt, hgt⟩
      · intro hall h hmem hcontra
        exact absurd hcontra.2 (not_lt.mpr (hall h hmem))
  · decide

/-- Claim C3 (witness): the general part instantiated at the Apollo
example, hypotheses discharged concretely. -/
theorem claim_C3_witness :
    ∃ h ∈ [(⟨"Apollo Hospitals", "Chennai", "h1"⟩ : DoctorsImport.HospitalDoc)],
      "h1" = h.id ∧
        DoctorsImport.totalScore
          (pyLower (DoctorsImport.clean_hospital_name "Apollo Hospital"))
          (pyLower "Chennai".data) h > mkRat 3 5 :=
  (claim_C3.1 "Apollo Hospital" "Chennai"
    [⟨"Apollo Hospitals", "Chennai", "h1"⟩] (by decide) (by decide)).1 "h1" claim_C3.2

/-! ## Claim C6 -/

theorem ratingLoop_range (l : List Char) :
    ∀ pats, 0 ≤ CompIndia.ratingLoop pats l ∧ CompIndia.ratingLoop pats l ≤ 5 := by
  intro pats
  induction pats with
  | nil =>
    unfold CompIndia.ratingLoop
    exact ⟨le_refl 0, by norm_num⟩
  | cons p ps ih =>
    rcases hsearch : reSearch p l with _ | ⟨ms, caps⟩
    · have heq : CompIndia.ratingLoop (p :: ps) l = CompIndia.ratingLoop ps l := by
        rw [CompIndia.ratingLoop, hsearch]
      rw [heq]
      exact ih
    · have heq : CompIndia.ratingLoop (p :: ps) l =
          if 0 ≤ decValue (capGet caps 1) ∧ decValue (capGet caps 1) ≤ 5 then
            decValue (capGet caps 1)
          else CompIndia.ratingLoop ps l := by
        rw [CompIndia.ratingLoop, hsearch]
      rw [heq]
      by_cases hr : 0 ≤ decValue (capGet caps 1) ∧ decValue (capGet caps 1) ≤ 5
      · rw [if_pos hr]
        exact hr
      · rw [if_neg hr]
        exact ih

theorem natLoop_range (l : List Char) (lo hi : Nat) :
    ∀ pats, CompIndia.natLoop lo hi pats l = 0 ∨
      (lo ≤ CompIndia.natLoop lo hi pats l ∧ CompIndia.natLoop lo hi pats l ≤ hi) := by
  intro pats
  induction pats with
  | nil => exact Or.inl rfl
  | cons p ps ih =>
    rcases hsearch : reSearch p l with _ | ⟨ms, caps⟩
    · have heq : CompIndia.natLoop lo hi (p :: ps) l = CompIndia.natLoop lo hi ps l := by
        rw [CompIndia.natLoop, hsearch]
      rw [heq]
      exact ih
    · have heq : CompIndia.natLoop lo hi (p :: ps) l =
          if lo ≤ natOfDigits (capGet caps 1) ∧ natOfDigits (capGet caps 1) ≤ hi then
            natOfDigits (capGet caps 1)
          else CompIndia.natLoop lo hi ps l := by
        rw [CompIndia.natLoop, hsearch]
      rw [heq]
      by_cases hr : lo ≤ natOfDigits (capGet caps 1) ∧ natOfDigits (capGet caps 1) ≤ hi
      · rw [if_pos hr]
        exact Or.inr hr
      · rw [if_neg hr]
        exact ih

/-- Claim C6 (confirmed): for every page text, the extracted established
year is absent (0) or lies in `[1800, 2025]` (hence within `[1800, current
year]`), the extracted bed count is absent (0) or lies in `[1, 5000]` (the
code enforces the tighter `[10, 5000]`), and the extracted rating always
lies in `[0, 5]` — out-of-range matches are discarded by the range checks
rather than accepted. -/
theorem claim_C6 (text : String) :
    (CompIndia.extract_established_comprehensive text = 0 ∨
      (1800 ≤ CompIndia.extract_established_comprehensive text ∧
        CompIndia.extract_established_comprehensive text ≤ 2025)) ∧
    (CompIndia.extract_beds_comprehensive text = 0 ∨
      (1 ≤ CompIndia.extract_beds_comprehensive text ∧
        CompIndia.extract_beds_comprehensive text ≤ 5000)) ∧
    (0 ≤ CompIndia.extract_rating_comprehensive text ∧
      CompIndia.extract_rating_comprehensive text ≤ 5) := by
  refine ⟨?_, ?_, ?_⟩
  · exact natLoop_range text.data 1800 2025 CompIndia.established_patterns
  · rcases natLoop_range text.data 10 5000 CompIndia.beds_patterns with h | h
    · exact Or.inl h
    · exact Or.inr ⟨le_trans (by norm_num) h.1, h.2⟩
  · exact ratingLoop_range text.data CompIndia.rating_patterns

/-! ## Claim C5 -/

theorem digit_not_space {c : Char} (h : isDigitPy c = true) : isSpacePy c = false := by
  cases hsp : isSpacePy c
  · rfl
  · exfalso
    have hc := hsp
    simp only [isSpacePy, Bool.or_eq_true, decide_eq_true_eq] at hc
    rcases hc with ⟨⟨⟨⟨rfl | rfl⟩ | rfl⟩ | rfl⟩ | rfl⟩ | rfl <;>
      exact absurd h (by decide)

theorem digit_ne_lparen {c : Char} (h : isDigitPy c = true) : c ≠ '(' := by
  intro heq
  rw [heq] at h
  exact absurd h (by decide)

theorem digit_ne_dot {c : Char} (h : isDigitPy c = true) : c ≠ '.' := by
  intro heq
  rw [heq] at h
  exact absurd h (by decide)

/-- Every way `mmatch` consumes input leaves a suffix of it. -/
theorem mmatch_suffix (r : RE) :
    ∀ (s : List Char) (m : List Char × Caps), m ∈ mmatch r s → m.1 <:+ s := by
  induction r with
  | eps =>
    intro s m hm
    simp only [mmatch, List.mem_singleton] at hm
    rw [hm]
  | lit c =>
    intro s m hm
    cases s with
    | nil => simp [mmatch] at hm
    | cons x t =>
      by_cases hx : x = c
      · simp only [mmatch, if_pos hx, List.mem_singleton] at hm
        rw [hm]
        exact List.suffix_cons x t
      · simp [mmatch, hx] at hm
  | cls p =>
    intro s m hm
    cases s with
    | nil => simp [mmatch] at hm
    | cons x t =>
      by_cases hx : p x = true
      · simp only [mmatch, if_pos hx, List.mem_singleton] at hm
        rw [hm]
        exact List.suffix_cons x t
      · rw [mmatch_cls_cons_nil (by simpa using hx)] at hm
        simp at hm
  | seq r1 r2 ih1 ih2 =>
    intro s m hm
    simp only [mmatch, List.mem_flatMap, List.mem_map] at hm
    obtain ⟨pr, hpr, qr, hqr, rfl⟩ := hm
    exact (ih2 pr.1 qr hqr).trans (ih1 s pr hpr)
  | alt r1 r2 ih1 ih2 =>
    intro s m hm
    rcases List.mem_append.mp hm with hm | hm
    · exact ih1 s m hm
    · exact ih2 s m hm
  | opt r ih =>
    intro s m hm
    have hm' : m ∈ mmatch r s ∨ m = (s, []) := by simpa [mmatch] using hm
    rcases hm' with hm' | rfl
    · exact ih s m hm'
    · exact List.suffix_rfl
  | grp n r ih =>
    intro s m hm
    simp only [mmatch, List.mem_map] at hm
    obtain ⟨pr, hpr, rfl⟩ := hm
    exact ih s pr hpr
  | repGE p mn =>
    intro s m hm
    simp only [mmatch] at hm
    split at hm
    · simp at hm
    · simp only [List.mem_map, List.mem_range] at hm
      obtain ⟨k, _, rfl⟩ := hm
      exact List.drop_suffix _ s
  | repB p mn mxb =>
    intro s m hm
    simp only [mmatch] at hm
    split at hm
    · simp at hm
    · simp only [List.mem_map, List.mem_range] at hm
      obtain ⟨k, _, rfl⟩ := hm
      exact List.drop_suffix _ s
  | endA =>
    intro s m hm
    simp only [mmatch] at hm
    split at hm
    · simp only [List.mem_singleton] at hm
      rw [hm]
    · simp at hm

theorem subAnchor_suffix (r : RE) (s : List Char) : subAnchor r s <:+ s := by
  unfold subAnchor
  cases hm : mmatch r s with
  | nil => exact List.suffix_rfl
  | cons m t => exact mmatch_suffix r s m (by rw [hm]; simp)

theorem pyStrip_within (l : List Char) : pyStrip l <:+: l := by
  unfold pyStrip
  have h1 : l.dropWhile isSpacePy <:+ l := List.dropWhile_suffix isSpacePy
  have h2 : (l.dropWhile isSpacePy).reverse.dropWhile isSpacePy <:+
      (l.dropWhile isSpacePy).reverse := List.dropWhile_suffix isSpacePy
  obtain ⟨v, hv⟩ := h2
  have hpre : ((l.dropWhile isSpacePy).reverse.dropWhile isSpacePy).reverse <+:
      l.dropWhile isSpacePy := by
    refine ⟨v.reverse, ?_⟩
    have := congrArg List.reverse hv
    simpa [List.reverse_append] using this
  exact hpre.isInfix.trans h1.isInfix

theorem startsRun4_append {l v : List Char} (h : startsRun4 l = true) :
    startsRun4 (l ++ v) = true := by
  rcases l with _ | ⟨a, _ | ⟨b, _ | ⟨c, _ | ⟨d, t⟩⟩⟩⟩
  · exact absurd h (by simp [startsRun4])
  · exact absurd h (by simp [startsRun4])
  · exact absurd h (by simp [startsRun4])
  · exact absurd h (by simp [startsRun4])
  · simp only [List.cons_append]
    exact h

theorem hasRun4_append_right {u : List Char} (v : List Char) (h : hasRun4 u = true) :
    hasRun4 (u ++ v) = true := by
  induction u with
  | nil => simp [hasRun4] at h
  | cons a t ih =>
    simp only [hasRun4, Bool.or_eq_true] at h
    simp only [List.cons_append, hasRun4, Bool.or_eq_true]
    rcases h with h | h
    · exact Or.inl (by simpa [List.cons_append] using startsRun4_append (v := v) h)
    · exact Or.inr (ih h)

theorem hasRun4_append_left (u : List Char) {v : List Char} (h : hasRun4 v = true) :
    hasRun4 (u ++ v) = true := by
  induction u with
  | nil => simpa using h
  | cons a t ih =>
    simp only [List.cons_append, hasRun4, Bool.or_eq_true]
    exact Or.inr ih

theorem hasRun4_of_within {s' s : List Char} (h : s' <:+: s) (h4 : hasRun4 s' = true) :
    hasRun4 s = true := by
  obtain ⟨u, v, rfl⟩ := h
  rw [List.append_assoc]
  exact hasRun4_append_left u (hasRun4_append_right v h4)

theorem runLen_lt_four {l : List Char} (h : startsRun4 l = false) :
    runLen isDigitPy l < 4 := by
  rcases l with _ | ⟨a, _ | ⟨b, _ | ⟨c, _ | ⟨d, t⟩⟩⟩⟩
  · simp [runLen]
  · simp only [runLen]
    split_ifs <;> simp [runLen]
  · simp only [runLen]
    split_ifs <;> simp [runLen]
  · simp only [runLen]
    split_ifs <;> simp [runLen]
  · simp only [startsRun4] at h
    simp only [runLen]
    split_ifs with h1 h2 h3 h4
    · simp [h1, h2, h3, h4] at h
    · omega
    · omega
    · omega
    · omega

theorem mmatch_reYear4_nil {l : List Char} (h : startsRun4 l = false) :
    mmatch reYear4 l = [] := by
  apply mmatch_grp_nil
  apply mmatch_repB_nil
  rw [min_eq_right (le_of_lt (runLen_lt_four h))]
  exact runLen_lt_four h

theorem searchYear_none : ∀ l : List Char, hasRun4 l = false →
    searchAux reYear4 l = none := by
  intro l
  induction l with
  | nil => intro _; rfl
  | cons a t ih =>
    intro h
    simp only [hasRun4, Bool.or_eq_false_iff] at h
    have step : searchAux reYear4 (a :: t) = searchAux reYear4 t := by
      show (match (mmatch reYear4 (a :: t)).head? with
        | some m => some m
        | none => searchAux reYear4 t) = searchAux reYear4 t
      rw [mmatch_reYear4_nil h.1]
      rfl
    rw [step]
    exact ih h.2

/-- The head match of the year pattern on a bare four-digit string. -/
theorem reYear4_search_digits {y1 y2 y3 y4 : Char}
    (h1 : isDigitPy y1 = true) (h2 : isDigitPy y2 = true)
    (h3 : isDigitPy y3 = true) (h4 : isDigitPy y4 = true) :
    searchAux reYear4 [y1, y2, y3, y4] = some ([], [(1, [y1, y2, y3, y4])]) := by
  apply searchAux_of_mhead
  have hrep : MHead (.repB isDigitPy 4 4) ([y1, y2, y3, y4] ++ []) ([], []) := by
    refine mhead_repB ?_ ?_ (by simp) (by simp)
    · intro c hc
      simp only [List.mem_cons, List.mem_singleton, List.not_mem_nil, or_false] at hc
      rcases hc with rfl | rfl | rfl | rfl
      · exact h1
      · exact h2
      · exact h3
      · exact h4
    · intro c hc
      simp at hc
  have := @mhead_grp _ [y1, y2, y3, y4] [] _ 1 hrep
  simpa [reYear4] using this

/-- The `^Established in:\s*` prefixes strip exactly the label from
`"Established in: YYYY"`. -/
theorem estPrefixCI_strips {Y : List Char}
    (hY : ∀ c, Y.head? = some c → isDigitPy c = true) :
    subAnchor reEstPrefixCI ("Established in: ".data ++ Y) = Y := by
  have hsplit : "Established in: ".data ++ Y = "Established in:".data ++ ([' '] ++ Y) := by
    rfl
  rw [hsplit]
  apply subAnchor_of_mhead (m := (Y, []))
  have hword : MHead (strciS "established in:")
      ("Established in:".data ++ ([' '] ++ Y)) ([' '] ++ Y, []) :=
    mhead_strci (by decide)
  have hws : MHead (.repGE isSpacePy 0) ([' '] ++ Y) (Y, []) := by
    refine mhead_repGE ?_ ?_ (by simp)
    · intro c hc
      simp only [List.mem_singleton] at hc
      rw [hc]
      rfl
    · intro c hc
      exact digit_not_space (hY c hc)
  simpa [reEstPrefixCI, reCat] using mhead_seq hword hws

theorem estPrefixCS_strips {Y : List Char}
    (hY : ∀ c, Y.head? = some c → isDigitPy c = true) :
    subAnchor reEstPrefixCS ("Established in: ".data ++ Y) = Y := by
  have hsplit : "Established in: ".data ++ Y = "Established in:".data ++ ([' '] ++ Y) := by
    rfl
  rw [hsplit]
  apply subAnchor_of_mhead (m := (Y, []))
  have hword : MHead (strLitS "Established in:")
      ("Established in:".data ++ ([' '] ++ Y)) ([' '] ++ Y, []) := mhead_strLit
  have hws : MHead (.repGE isSpacePy 0) ([' '] ++ Y) (Y, []) := by
    refine mhead_repGE ?_ ?_ (by simp)
    · intro c hc
      simp only [List.mem_singleton] at hc
      rw [hc]
      rfl
    · intro c hc
      exact digit_not_space (hY c hc)
  simpa [reEstPrefixCS, reCat] using mhead_seq hword hws

theorem pyStrip_digits {y1 y2 y3 y4 : Char}
    (h1 : isDigitPy y1 = true) (h4 : isDigitPy y4 = true) :
    pyStrip [y1, y2, y3, y4] = [y1, y2, y3, y4] := by
  unfold pyStrip
  rw [List.dropWhile_cons_of_neg (by simp [digit_not_space h1])]
  simp only [List.reverse_cons, List.reverse_nil, List.nil_append]
  rw [show ([y4] ++ [y3] ++ [y2] ++ [y1] : List Char) = y4 :: [y3, y2, y1] by simp]
  rw [List.dropWhile_cons_of_neg (by simp [digit_not_space h4])]
  simp

theorem pyStrip_estLine {y1 y2 y3 y4 : Char} (h4 : isDigitPy y4 = true) :
    pyStrip ("Established in: ".data ++ [y1, y2, y3, y4])
      = "Established in: ".data ++ [y1, y2, y3, y4] := by
  unfold pyStrip
  have hcons : "Established in: ".data ++ [y1, y2, y3, y4]
      = 'E' :: ("stablished in: ".data ++ [y1, y2, y3, y4]) := rfl
  rw [hcons, List.dropWhile_cons_of_neg (by simp [isSpacePy])]
  rw [show ('E' :: ("stablished in: ".data ++ [y1, y2, y3, y4])).reverse
      = y4 :: ([y3, y2, y1] ++ ('E' :: "stablished in: ".data).reverse) by simp]
  rw [List.dropWhile_cons_of_neg (by simp [digit_not_space h4])]
  simp

/-- Claim C5 (confirmed): both established-year parsers return `Y` on
`"Established in: Y"` for a four-digit `Y`, and return their absent value
(`None` resp. `0`) on any input containing no four-digit digit run. -/
theorem claim_C5 :
    (∀ y1 y2 y3 y4 : Char, isDigitPy y1 = true → isDigitPy y2 = true →
      isDigitPy y3 = true → isDigitPy y4 = true →
      AnalyzeImport.parse_established_year ⟨"Established in: ".data ++ [y1, y2, y3, y4]⟩
          = some (natOfDigits [y1, y2, y3, y4]) ∧
      ImportFinal.parse_established_year ⟨"Established in: ".data ++ [y1, y2, y3, y4]⟩
          = natOfDigits [y1, y2, y3, y4]) ∧
    (∀ s : String, hasRun4 s.data = false →
      AnalyzeImport.parse_established_year s = none ∧
      ImportFinal.parse_established_year s = 0) := by
  constructor
  · intro y1 y2 y3 y4 h1 h2 h3 h4
    have hY : ∀ c, ([y1, y2, y3, y4] : List Char).head? = some c → isDigitPy c = true := by
      intro c hc
      simp only [List.head?_cons, Option.some_inj] at hc
      rw [← hc]
      exact h1
    constructor
    · unfold AnalyzeImport.parse_established_year
      unfold reSearch
      rw [if_neg ?hnan]
      case hnan =>
        intro hcontra
        have hd := congrArg String.data hcontra
        simp only at hd
        have hlen := congrArg List.length hd
        rw [List.length_append,
          show ("Established in: ".data).length = 16 from rfl,
          show ([y1, y2, y3, y4] : List Char).length = 4 from rfl,
          show ("nan".data).length = 3 from rfl] at hlen
        omega
      rw [show (⟨"Established in: ".data ++ [y1, y2, y3, y4]⟩ : String).data
          = "Established in: ".data ++ [y1, y2, y3, y4] from rfl]
      rw [estPrefixCI_strips hY, pyStrip_digits h1 h4]
      rw [reYear4_search_digits h1 h2 h3 h4]
      simp [capGet]
    · unfold ImportFinal.parse_established_year
      unfold reSearch
      rw [show (⟨"Established in: ".data ++ [y1, y2, y3, y4]⟩ : String).data
          = "Established in: ".data ++ [y1, y2, y3, y4] from rfl]
      rw [pyStrip_estLine h4, estPrefixCS_strips hY]
      rw [reYear4_search_digits h1 h2 h3 h4]
      simp [capGet]
  · intro s hs
    constructor
    · unfold AnalyzeImport.parse_established_year
      unfold reSearch
      by_cases hnan : s = "nan"
      · rw [if_pos hnan]
      · rw [if_neg hnan]
        have hinf : pyStrip (subAnchor reEstPrefixCI s.data) <:+: s.data :=
          (pyStrip_within _).trans (subAnchor_suffix reEstPrefixCI s.data).isInfix
        have hclean : hasRun4 (pyStrip (subAnchor reEstPrefixCI s.data)) = false := by
          cases hc : hasRun4 (pyStrip (subAnchor reEstPrefixCI s.data))
          · rfl
          · exact absurd (hasRun4_of_within hinf hc) (by simp [hs])
        rw [searchYear_none _ hclean]
    · unfold ImportFinal.parse_established_year
      unfold reSearch
      have hinf : subAnchor reEstPrefixCS (pyStrip s.data) <:+: s.data :=
        (subAnchor_suffix reEstPrefixCS (pyStrip s.data)).isInfix.trans (pyStrip_within _)
      have hclean : hasRun4 (subAnchor reEstPrefixCS (pyStrip s.data)) = false := by
        cases hc : hasRun4 (subAnchor reEstPrefixCS (pyStrip s.data))
        · rfl
        · exact absurd (hasRun4_of_within hinf hc) (by simp [hs])
      rw [searchYear_none _ hclean]

/-- Claim C5 (witness): the parsers at `"Established in: 1995"` and at a
digit-free string. -/
theorem claim_C5_witness :
    (AnalyzeImport.parse_established_year ⟨"Established in: ".data ++ ['1', '9', '9', '5']⟩
        = some (natOfDigits ['1', '9', '9', '5']) ∧
      ImportFinal.parse_established_year ⟨"Established in: ".data ++ ['1', '9', '9', '5']⟩
        = natOfDigits ['1', '9', '9', '5']) ∧
    (AnalyzeImport.parse_established_year "no year here" = none ∧
      ImportFinal.parse_established_year "no year here" = 0) :=
  ⟨claim_C5.1 '1' '9' '9' '5' (by decide) (by decide) (by decide) (by decide),
   claim_C5.2 "no year here" (by decide)⟩

/-! ## Claims C4 and C10 -/

/-- The greedy head match of `\d+\.?\d*` consumes exactly the decimal
number when the following character is neither a digit nor a dot. -/
theorem reNum_head {ds : List Char} {fr : Option (List Char)} {rest : List Char}
    (hds : ds ≠ []) (hdsd : ∀ c ∈ ds, isDigitPy c = true)
    (hfr : ∀ f, fr = some f → ∀ c ∈ f, isDigitPy c = true)
    (hr1 : ∀ c, rest.head? = some c → isDigitPy c = false)
    (hr2 : ∀ c, rest.head? = some c → c ≠ '.') :
    MHead reNum (numStr ds fr ++ rest) (rest, []) := by
  cases fr with
  | none =>
    have h1 : MHead (.repGE isDigitPy 1) (ds ++ rest) (rest, []) :=
      mhead_repGE hdsd hr1 (List.length_pos.mpr hds)
    have h2 : MHead (.opt (.lit '.')) rest (rest, []) := by
      apply mhead_opt_no
      cases rest with
      | nil => rfl
      | cons c t => exact mmatch_lit_cons_nil (hr2 c rfl)
    have h3 : MHead (.repGE isDigitPy 0) rest (rest, []) := by
      have := @mhead_repGE isDigitPy [] rest 0 (by simp) hr1 (by simp)
      simpa using this
    have htot := mhead_seq h1 (mhead_seq h2 h3)
    simpa [reNum, reCat, numStr] using htot
  | some f =>
    have hfd : ∀ c ∈ f, isDigitPy c = true := hfr f rfl
    have h1 : MHead (.repGE isDigitPy 1) (ds ++ ('.' :: (f ++ rest)))
        ('.' :: (f ++ rest), []) := by
      refine mhead_repGE hdsd ?_ (List.length_pos.mpr hds)
      intro c hc
      simp only [List.head?_cons, Option.some_inj] at hc
      rw [← hc]
      decide
    have h2 : MHead (.opt (.lit '.')) ('.' :: (f ++ rest)) (f ++ rest, []) :=
      mhead_opt_yes (mhead_lit '.' (f ++ rest))
    have h3 : MHead (.repGE isDigitPy 0) (f ++ rest) (rest, []) :=
      mhead_repGE hfd hr1 (by simp)
    have htot := mhead_seq h1 (mhead_seq h2 h3)
    have heq : numStr ds (some f) ++ rest = ds ++ ('.' :: (f ++ rest)) := by
      simp [numStr]
    rw [heq]
    simpa [reNum, reCat] using htot

/-- The group-1 wrapper around the number match. -/
theorem reNumGrp_head {ds : List Char} {fr : Option (List Char)} {rest : List Char}
    (hds : ds ≠ []) (hdsd : ∀ c ∈ ds, isDigitPy c = true)
    (hfr : ∀ f, fr = some f → ∀ c ∈ f, isDigitPy c = true)
    (hr1 : ∀ c, rest.head? = some c → isDigitPy c = false)
    (hr2 : ∀ c, rest.head? = some c → c ≠ '.') :
    MHead (.grp 1 reNum) (numStr ds fr ++ rest) (rest, [(1, numStr ds fr)]) := by
  have := @mhead_grp _ (numStr ds fr) rest _ 1 (reNum_head hds hdsd hfr hr1 hr2)
  simpa using this

/-- Full head match of the combined rating pattern against `"R (N Ratings)"`. -/
theorem reRatingCombined_head {ds ns : List Char} {fr : Option (List Char)}
    (hds : ds ≠ []) (hdsd : ∀ c ∈ ds, isDigitPy c = true)
    (hfr : ∀ f, fr = some f → ∀ c ∈ f, isDigitPy c = true)
    (hns : ns ≠ []) (hnsd : ∀ c ∈ ns, isDigitPy c = true) :
    MHead reRatingCombined (ratingStr ds fr ns)
      ([], [(1, numStr ds fr), (2, ns)]) := by
  have hg1 : MHead (.grp 1 reNum)
      (numStr ds fr ++ (' ' :: '(' :: (ns ++ " Ratings)".data)))
      (' ' :: '(' :: (ns ++ " Ratings)".data), [(1, numStr ds fr)]) := by
    refine reNumGrp_head hds hdsd hfr ?_ ?_
    · intro c hc
      simp only [List.head?_cons, Option.some_inj] at hc
      rw [← hc]
      decide
    · intro c hc
      simp only [List.head?_cons, Option.some_inj] at hc
      rw [← hc]
      decide
  have hws1 : MHead (.repGE isSpacePy 0) (' ' :: '(' :: (ns ++ " Ratings)".data))
      ('(' :: (ns ++ " Ratings)".data), []) := by
    have := @mhead_repGE isSpacePy [' '] ('(' :: (ns ++ " Ratings)".data)) 0 (by decide)
      (fun c hc => by
        simp only [List.head?_cons, Option.some_inj] at hc
        rw [← hc]
        decide)
      (by simp)
    simpa using this
  have hlp : MHead (.lit '(') ('(' :: (ns ++ " Ratings)".data))
      (ns ++ " Ratings)".data, []) := mhead_lit '(' _
  have hg2 : MHead (.grp 2 (.repGE isDigitPy 1)) (ns ++ " Ratings)".data)
      (" Ratings)".data, [(2, ns)]) := by
    have hin : MHead (.repGE isDigitPy 1) (ns ++ " Ratings)".data)
        (" Ratings)".data, []) := by
      refine mhead_repGE hnsd ?_ (List.length_pos.mpr hns)
      intro c hc
      rw [show (" Ratings)".data).head? = some ' ' from rfl] at hc
      simp only [Option.some_inj] at hc
      rw [← hc]
      decide
    have := @mhead_grp _ ns (" Ratings)".data) _ 2 hin
    simpa using this
  have hws2 : MHead (.repGE isSpacePy 0) (" Ratings)".data) ("Ratings)".data, []) := by
    have := @mhead_repGE isSpacePy [' '] ("Ratings)".data) 0 (by decide)
      (fun c hc => by
        rw [show ("Ratings)".data).head? = some 'R' from rfl] at hc
        simp only [Option.some_inj] at hc
        rw [← hc]
        decide)
      (by simp)
    simpa using this
  have hword : MHead (strLitS "Rating") ("Ratings)".data) ("s)".data, []) := by
    have h := @mhead_strLit "Rating".data "s)".data
    exact h
  have hopt : MHead (.opt (.lit 's')) ("s)".data) ([')'], []) :=
    mhead_opt_yes (mhead_lit 's' [')'])
  have hrp : MHead (.lit ')') [')'] ([], []) := mhead_lit ')' []
  have htot := mhead_seq hg1 (mhead_seq hws1 (mhead_seq hlp (mhead_seq hg2
    (mhead_seq hws2 (mhead_seq hword (mhead_seq hopt hrp))))))
  have heq : ratingStr ds fr ns
      = numStr ds fr ++ (' ' :: '(' :: (ns ++ " Ratings)".data)) := by
    simp [ratingStr, List.append_assoc]
  rw [heq]
  simpa [reRatingCombined, reCat] using htot

/-- Full head match of the case-insensitive reviews pattern against
`"(N Ratings)"`. -/
theorem reReviewsCI_head {ns : List Char}
    (hns : ns ≠ []) (hnsd : ∀ c ∈ ns, isDigitPy c = true) :
    MHead reReviewsCI ('(' :: (ns ++ " Ratings)".data)) ([], [(1, ns)]) := by
  have hlp : MHead (.lit '(') ('(' :: (ns ++ " Ratings)".data))
      (ns ++ " Ratings)".data, []) := mhead_lit '(' _
  have hg1 : MHead (.grp 1 (.repGE isDigitPy 1)) (ns ++ " Ratings)".data)
      (" Ratings)".data, [(1, ns)]) := by
    have hin : MHead (.repGE isDigitPy 1) (ns ++ " Ratings)".data)
        (" Ratings)".data, []) := by
      refine mhead_repGE hnsd ?_ (List.length_pos.mpr hns)
      intro c hc
      rw [show (" Ratings)".data).head? = some ' ' from rfl] at hc
      simp only [Option.some_inj] at hc
      rw [← hc]
      decide
    have := @mhead_grp _ ns (" Ratings)".data) _ 1 hin
    simpa using this
  have hws : MHead (.repGE isSpacePy 0) (" Ratings)".data) ("Ratings)".data, []) := by
    have := @mhead_repGE isSpacePy [' '] ("Ratings)".data) 0 (by decide)
      (fun c hc => by
        rw [show ("Ratings)".data).head? = some 'R' from rfl] at hc
        simp only [Option.some_inj] at hc
        rw [← hc]
        decide)
      (by simp)
    simpa using this
  have hword : MHead (strciS "rating") ("Ratings)".data) ("s)".data, []) := by
    have h : MHead (strci ("Rating".data.map Char.toLower))
        ("Rating".data ++ "s)".data) ("s)".data, []) := mhead_strci rfl
    exact h
  have hopt : MHead (.opt (litci 's')) ("s)".data) ([')'], []) :=
    mhead_opt_yes (mhead_cls _ 's' [')'] (by decide))
  have hrp : MHead (.lit ')') [')'] ([], []) := mhead_lit ')' []
  have htot := mhead_seq hlp (mhead_seq hg1 (mhead_seq hws
    (mhead_seq hword (mhead_seq hopt hrp))))
  simpa [reReviewsCI, reCat] using htot

/-- No character of `R` or the following space can start the reviews
pattern, which requires a literal `(`. -/
theorem reviews_skip {ds : List Char} {fr : Option (List Char)}
    (hdsd : ∀ c ∈ ds, isDigitPy c = true)
    (hfr : ∀ f, fr = some f → ∀ c ∈ f, isDigitPy c = true) :
    ∀ c t, c ∈ numStr ds fr ++ [' '] → mmatch reReviewsCI (c :: t) = [] := by
  intro c t hc
  have hne : c ≠ '(' := by
    rcases List.mem_append.mp hc with hm | hm
    · rcases List.mem_append.mp hm with hm' | hm'
      · exact digit_ne_lparen (hdsd c hm')
      · cases fr with
        | none => simp at hm'
        | some f =>
          rcases List.mem_cons.mp hm' with rfl | hm''
          · decide
          · exact digit_ne_lparen (hfr f rfl c hm'')
    · simp only [List.mem_singleton] at hm
      rw [hm]
      decide
  show mmatch (.seq (.lit '(')
    (reCat [.grp 1 (.repGE isDigitPy 1), .repGE isSpacePy 0,
      strciS "rating", .opt (litci 's'), .lit ')'])) (c :: t) = []
  exact mmatch_seq_nil (mmatch_lit_cons_nil hne)

/-- The `enhanced_hospital_import_final.parse_rating` on a well-formed
`"R (N Ratings)"` string. -/
theorem parse_rating_final_shape {ds ns : List Char} {fr : Option (List Char)}
    (hds : ds ≠ []) (hdsd : ∀ c ∈ ds, isDigitPy c = true)
    (hfr : ∀ f, fr = some f → ∀ c ∈ f, isDigitPy c = true)
    (hns : ns ≠ []) (hnsd : ∀ c ∈ ns, isDigitPy c = true) :
    ImportFinal.parse_rating ⟨ratingStr ds fr ns⟩
      = ⟨decValue (numStr ds fr), natOfDigits ns⟩ := by
  unfold ImportFinal.parse_rating
  unfold reSearch
  rw [show (⟨ratingStr ds fr ns⟩ : String).data = ratingStr ds fr ns from rfl]
  rw [searchAux_of_mhead (reRatingCombined_head hds hdsd hfr hns hnsd)]
  simp [capGet]

/-- The `enhanced_doctors_import.parse_rating` on a well-formed string. -/
theorem parse_rating_doctors_shape {ds ns : List Char} {fr : Option (List Char)}
    (hds : ds ≠ []) (hdsd : ∀ c ∈ ds, isDigitPy c = true)
    (hfr : ∀ f, fr = some f → ∀ c ∈ f, isDigitPy c = true)
    (hns : ns ≠ []) (hnsd : ∀ c ∈ ns, isDigitPy c = true) :
    DoctorsImport.parse_rating ⟨ratingStr ds fr ns⟩
      = ⟨decValue (numStr ds fr), natOfDigits ns⟩ := by
  unfold DoctorsImport.parse_rating
  unfold reSearch
  rw [show (⟨ratingStr ds fr ns⟩ : String).data = ratingStr ds fr ns from rfl]
  rw [searchAux_of_mhead (reRatingCombined_head hds hdsd hfr hns hnsd)]
  simp [capGet]

/-- The `analyze_and_import_hospitals.parse_rating` on a well-formed string:
the two independent searches find `R` and `N`. -/
theorem parse_rating_analyze_shape {ds ns : List Char} {fr : Option (List Char)}
    (hds : ds ≠ []) (hdsd : ∀ c ∈ ds, isDigitPy c = true)
    (hfr : ∀ f, fr = some f → ∀ c ∈ f, isDigitPy c = true)
    (hns : ns ≠ []) (hnsd : ∀ c ∈ ns, isDigitPy c = true) :
    AnalyzeImport.parse_rating ⟨ratingStr ds fr ns⟩
      = ⟨decValue (numStr ds fr), natOfDigits ns⟩ := by
  unfold AnalyzeImport.parse_rating
  unfold reSearch
  rw [if_neg ?hnan]
  case hnan =>
    intro hcontra
    have hd := congrArg String.data hcontra
    simp only at hd
    rcases ds with _ | ⟨d, ds'⟩
    · exact hds rfl
    · have hd0 : isDigitPy d = true := hdsd d (by simp)
      have hhead := congrArg List.head? hd
      rw [show (ratingStr (d :: ds') fr ns).head? = some d from rfl,
        show ("nan".data).head? = some 'n' from rfl] at hhead
      simp only [Option.some_inj] at hhead
      rw [hhead] at hd0
      exact absurd hd0 (by decide)
  rw [show (⟨ratingStr ds fr ns⟩ : String).data = ratingStr ds fr ns from rfl]
  have hrate : searchAux reNumGrp (ratingStr ds fr ns)
      = some (' ' :: '(' :: (ns ++ " Ratings)".data), [(1, numStr ds fr)]) := by
    have heq : ratingStr ds fr ns
        = numStr ds fr ++ (' ' :: '(' :: (ns ++ " Ratings)".data)) := by
      simp [ratingStr, List.append_assoc]
    rw [heq]
    apply searchAux_of_mhead
    refine reNumGrp_head hds hdsd hfr ?_ ?_
    · intro c hc
      simp only [List.head?_cons, Option.some_inj] at hc
      rw [← hc]
      decide
    · intro c hc
      simp only [List.head?_cons, Option.some_inj] at hc
      rw [← hc]
      decide
  have hrev : searchAux reReviewsCI (ratingStr ds fr ns) = some ([], [(1, ns)]) := by
    have heq : ratingStr ds fr ns
        = (numStr ds fr ++ [' ']) ++ ('(' :: (ns ++ " Ratings)".data)) := by
      simp [ratingStr, List.append_assoc]
    rw [heq, searchAux_skip (reviews_skip hdsd hfr)]
    exact searchAux_of_mhead (reReviewsCI_head hns hnsd)
  rw [hrate, hrev]
  simp [capGet]

/-- Claim C4 (counterexample): on `"abc 7"`, which does not contain the
`"R (N Ratings)"` pattern, the analyze-importer's parser returns rating
`7.0` (its rating regex matches any bare number), not the zero values. -/
theorem claim_C4_counterexample :
    reSearch reRatingCombined "abc 7".data = none ∧
    AnalyzeImport.parse_rating "abc 7" = ⟨mkRat 7 1, 0⟩ ∧
    AnalyzeImport.parse_rating "abc 7" ≠ ⟨0, 0⟩ := by
  refine ⟨by decide, by decide, by decide⟩

/-- Claim C4 (amended): on every whole string of shape `"R (N Ratings)"`
all three rating parsers return `rating = R` and `reviewCount = N`; on
strings not containing that pattern the two combined-pattern parsers
(final hospital importer and doctors importer) return `(0.0, 0)`, while the
analyze-importer's parser extracts the rating from the first bare number
when one is present. -/
theorem claim_C4_amended :
    (∀ (ds ns : List Char) (fr : Option (List Char)), ds ≠ [] →
      (∀ c ∈ ds, isDigitPy c = true) →
      (∀ f, fr = some f → ∀ c ∈ f, isDigitPy c = true) →
      ns ≠ [] → (∀ c ∈ ns, isDigitPy c = true) →
      ImportFinal.parse_rating ⟨ratingStr ds fr ns⟩
          = ⟨decValue (numStr ds fr), natOfDigits ns⟩ ∧
      DoctorsImport.parse_rating ⟨ratingStr ds fr ns⟩
          = ⟨decValue (numStr ds fr), natOfDigits ns⟩ ∧
      AnalyzeImport.parse_rating ⟨ratingStr ds fr ns⟩
          = ⟨decValue (numStr ds fr), natOfDigits ns⟩) ∧
    (∀ s : String, reSearch reRatingCombined s.data = none →
      ImportFinal.parse_rating s = ⟨0, 0⟩ ∧ DoctorsImport.parse_rating s = ⟨0, 0⟩) := by
  constructor
  · intro ds ns fr hds hdsd hfr hns hnsd
    exact ⟨parse_rating_final_shape hds hdsd hfr hns hnsd,
      parse_rating_doctors_shape hds hdsd hfr hns hnsd,
      parse_rating_analyze_shape hds hdsd hfr hns hnsd⟩
  · intro s hnone
    constructor
    · unfold ImportFinal.parse_rating
      rw [hnone]
    · unfold DoctorsImport.parse_rating
      rw [hnone]

/-- Claim C4 (witness): the amended behaviour at `"4.3 (86 Ratings)"` and
at a pattern-free string. -/
theorem claim_C4_witness :
    (ImportFinal.parse_rating ⟨ratingStr ['4'] (some ['3']) ['8', '6']⟩
        = ⟨decValue (numStr ['4'] (some ['3'])), natOfDigits ['8', '6']⟩ ∧
      DoctorsImport.parse_rating ⟨ratingStr ['4'] (some ['3']) ['8', '6']⟩
        = ⟨decValue (numStr ['4'] (some ['3'])), natOfDigits ['8', '6']⟩ ∧
      AnalyzeImport.parse_rating ⟨ratingStr ['4'] (some ['3']) ['8', '6']⟩
        = ⟨decValue (numStr ['4'] (some ['3'])), natOfDigits ['8', '6']⟩) ∧
    (ImportFinal.parse_rating "no ratings here" = ⟨0, 0⟩ ∧
      DoctorsImport.parse_rating "no ratings here" = ⟨0, 0⟩) :=
  ⟨claim_C4_amended.1 ['4'] ['8', '6'] (some ['3']) (by decide) (by decide)
      (by
        intro f hf
        injection hf with hf'
        rw [← hf']
        decide)
      (by decide) (by decide),
   claim_C4_amended.2 "no ratings here" (by decide)⟩

/-- Claim C10 (confirmed): the three `parse_rating` implementations agree on
every whole string of the exact shape `"R (N Ratings)"`. -/
theorem claim_C10 (ds ns : List Char) (fr : Option (List Char)) (hds : ds ≠ [])
    (hdsd : ∀ c ∈ ds, isDigitPy c = true)
    (hfr : ∀ f, fr = some f → ∀ c ∈ f, isDigitPy c = true)
    (hns : ns ≠ []) (hnsd : ∀ c ∈ ns, isDigitPy c = true) :
    AnalyzeImport.parse_rating ⟨ratingStr ds fr ns⟩
        = ImportFinal.parse_rating ⟨ratingStr ds fr ns⟩ ∧
    ImportFinal.parse_rating ⟨ratingStr ds fr ns⟩
        = DoctorsImport.parse_rating ⟨ratingStr ds fr ns⟩ := by
  rw [parse_rating_analyze_shape hds hdsd hfr hns hnsd,
    parse_rating_final_shape hds hdsd hfr hns hnsd,
    parse_rating_doctors_shape hds hdsd hfr hns hnsd]
  exact ⟨rfl, rfl⟩

/-- Claim C10 (witness): the three parsers agree at `"4.3 (86 Ratings)"`. -/
theorem claim_C10_witness :
    AnalyzeImport.parse_rating ⟨ratingStr ['4'] (some ['3']) ['8', '6']⟩
        = ImportFinal.parse_rating ⟨ratingStr ['4'] (some ['3']) ['8', '6']⟩ ∧
    ImportFinal.parse_rating ⟨ratingStr ['4'] (some ['3']) ['8', '6']⟩
        = DoctorsImport.parse_rating ⟨ratingStr ['4'] (some ['3']) ['8', '6']⟩ :=
  claim_C10 ['4'] ['8', '6'] (some ['3']) (by decide) (by decide)
    (by
      intro f hf
      injection hf with hf'
      rw [← hf']
      decide)
    (by decide) (by decide)

end Medibudy
